import Mathlib

/-!
Shallow embedding of the tgfmt annotation library (src/tgfmt): the data model
(`Interval`, `Point`, `IntervalTier`, `PointTier`, `TextGrid`), the ordered
insertion machinery (Python's `bisect_left` plus the comparison contract of
`Interval.__lt__` / `Point.__lt__`), the gap filling used by the writer
(`IntervalTier._fillInTheGaps`), the Praat TextGrid writer/reader pair
(`TextGrid.write` / `TextGrid.read`) and the HTK MLF reader (`MLF.read`).

Modelling conventions:
* Python floats are modelled as rationals; Python's built-in `round` is
  modelled as exact round-half-to-even on rationals.
* Fallible code (`raise ValueError`, parse failures) returns `Except TGErr`.
* Mutation of `self` becomes explicit state passing: a method that mutates a
  tier returns the updated tier.
* `TextGrid.write` produces, and `TextGrid.read` consumes, an abstract line
  stream (`AbsLine`): each physical line printed by the source becomes one
  `AbsLine` that keeps the printed key and payload.  This abstracts Python's
  decimal formatting/parsing of floats (which round-trips exactly via `repr`)
  and the multi-line quoted-mark accumulation of `_getMark` (a mark with an
  embedded newline spans several physical lines but one logical entry).
  Quote doubling/undoubling of mark text is modelled explicitly.
* The MLF reader works on genuine text lines (`List Char`), with `split()`,
  `rstrip()` and the `"(.*)"` filename regex modelled directly.  `float()` is
  modelled for the unsigned decimal integer tokens HTK emits.
-/

namespace Tgfmt

/-- Floor of a rational, written so that it evaluates by kernel reduction
(`ratFloor_eq_floor` below identifies it with `⌊·⌋`). -/
def ratFloor (q : ℚ) : ℤ := q.num.fdiv q.den

/-- Round half to even, the tie-breaking rule of Python's built-in `round`.
`Rat.ofInt` is the integer embedding (it agrees with the `↑` coercion but
evaluates by kernel reduction). -/
def roundHalfEven (q : ℚ) : ℤ :=
  let f : ℤ := ratFloor q
  if q - Rat.ofInt f < 1/2 then f
  else if 1/2 < q - Rat.ofInt f then f + 1
  else if f % 2 = 0 then f else f + 1

/-- Python's `round(q, d)`: round to `d` decimal digits, ties to even. -/
def pyRound (q : ℚ) (d : Nat) : ℚ :=
  let p : ℚ := Rat.ofInt ((10 ^ d : ℕ) : ℤ)
  Rat.ofInt (roundHalfEven (q * p)) / p

/-- Python truthiness of an optional float (`None` and `0.0` are falsy),
used to model `if self.maxTime and ...`. -/
def truthyB : Option ℚ → Bool
  | none => false
  | some m => decide (m ≠ 0)

/-- Payload of an optional float, meaningful only where `truthyB` held. -/
def qOf (o : Option ℚ) : ℚ := o.getD 0

/-- Element of an `IntervalTier` (class `Interval`, interval.py).  The
`strict` attribute is set by `Interval.__init__` to `True` and overwritten by
the owning tier/grid on insertion. -/
structure Interval where
  minTime : ℚ
  maxTime : ℚ
  mark : String
  strict : Bool := true
deriving DecidableEq, Repr

instance : Inhabited Interval := ⟨⟨0, 1, "", true⟩⟩

/-- Element of a `PointTier` (class `Point`, point.py). -/
structure Point where
  time : ℚ
  mark : String
deriving DecidableEq, Repr

instance : Inhabited Point := ⟨⟨0, ""⟩⟩

/-- The errors raised by the embedded code (`ValueError`, `TextGridError`,
parse failures).  Payloads mirror the arguments of the `raise` statements. -/
inductive TGErr where
  /-- `Interval.__init__`: `raise ValueError(minTime, maxTime)` on duration ≤ 0. -/
  | degenerate (a b : ℚ)
  /-- bounds check: `raise ValueError(self.minTime)  # too early`. -/
  | tooEarly (b : ℚ)
  /-- bounds check: `raise ValueError(self.maxTime)  # too late`. -/
  | tooLate (b : ℚ)
  /-- `Interval.__lt__` on a strict overlapping pair: `raise ValueError(self, other)`. -/
  | overlapErr (s o : Interval)
  /-- `IntervalTier.addInterval`: `raise ValueError(self.intervals[i])` on a duplicate slot. -/
  | dupInterval (i : Interval)
  /-- `PointTier.addPoint`: `raise ValueError(point)` on a duplicate time. -/
  | dupPoint (p : Point)
  /-- `MLF.read`: `raise ValueError('null duration interval')`. -/
  | nullDuration
  /-- header / numeric / quoted-field parse failure (`TextGridError`, `float()` etc.). -/
  | parseErr (s : String)
  /-- `min()` / `max()` of an empty sequence in `TextGrid.extend`. -/
  | emptySeq
deriving DecidableEq, Repr

/-- `Interval.__init__`: rejects duration ≤ 0 (`minTime >= maxTime`). -/
def intervalNew (minT maxT : ℚ) (mark : String) : Except TGErr Interval :=
  if minT ≥ maxT then .error (.degenerate minT maxT)
  else .ok { minTime := minT, maxTime := maxT, mark := mark, strict := true }

/-- `Interval.overlaps`: `other.minTime < self.maxTime and self.minTime < other.maxTime`. -/
def Interval.overlapsB (s o : Interval) : Bool :=
  decide (o.minTime < s.maxTime) && decide (s.minTime < o.maxTime)

/-- `Interval.__lt__` restricted to an `Interval` right operand (the only shape
`bisect_left` compares inside `addInterval`): a strict overlapping comparison
raises `ValueError(self, other)`; otherwise (warning on a non-strict overlap)
it compares `minTime`. -/
def intervalLt (s o : Interval) : Except TGErr Bool :=
  if s.strict && s.overlapsB o then .error (.overlapErr s o)
  else .ok (decide (s.minTime < o.minTime))

/-- The warning branch of `Interval.__lt__`: a non-strict overlapping
comparison logs a warning before falling back to `minTime`. -/
def intervalLtWarns (s o : Interval) : Bool := !s.strict && s.overlapsB o

/-- `Interval.__eq__` restricted to an `Interval` right operand: true iff both
bounds agree (marks are ignored). -/
def intervalEqB (s o : Interval) : Bool :=
  decide (s.minTime = o.minTime) && decide (s.maxTime = o.maxTime)

/-- Python's `list.insert(i, x)` (for `i ≤ len`). -/
def pyInsert (i : Nat) (x : α) (l : List α) : List α := l.take i ++ x :: l.drop i

/-- The loop of `bisect.bisect_left` over a list of `Interval`s, whose `<` can
raise.  The fuel argument is `hi - lo` at the first call; every iteration
shrinks `hi - lo` by at least one, so with fuel `≥ hi - lo` the `0`-fuel
branch is only reached with `lo ≥ hi` and coincides with the loop exit. -/
def bisectLoop (a : List Interval) (x : Interval) : Nat → Nat → Nat → Except TGErr Nat
  | 0, lo, _ => .ok lo
  | fuel + 1, lo, hi =>
    if lo < hi then
      let mid := (lo + hi) / 2
      match intervalLt (a.getD mid default) x with
      | .error e => .error e
      | .ok true => bisectLoop a x fuel (mid + 1) hi
      | .ok false => bisectLoop a x fuel lo mid
    else .ok lo

/-- `bisect_left(self.intervals, interval)`. -/
def bisectLt (a : List Interval) (x : Interval) : Except TGErr Nat :=
  bisectLoop a x a.length 0 a.length

/-- Sorted, bounds-checked, non-overlapping collection of intervals
(class `IntervalTier`, intervaltier.py). -/
structure IntervalTier where
  name : String := ""
  minTime : ℚ := 0
  maxTime : Option ℚ := none
  intervals : List Interval := []
  strict : Bool := true
deriving DecidableEq, Repr

/-- `IntervalTier.addInterval`: bounds checks (`<` for too early; the too-late
check only fires when `self.maxTime` is truthy), `bisect_left` insertion-point
search, duplicate-slot check, then `insert`.  The inserted interval's `strict`
is overwritten with the tier's. -/
def IntervalTier.addInterval (t : IntervalTier) (iv : Interval) : Except TGErr IntervalTier :=
  if iv.minTime < t.minTime then .error (.tooEarly t.minTime)
  else if truthyB t.maxTime && decide (qOf t.maxTime < iv.maxTime) then
    .error (.tooLate (qOf t.maxTime))
  else
    match bisectLt t.intervals iv with
    | .error e => .error e
    | .ok i =>
      if i ≠ t.intervals.length && intervalEqB (t.intervals.getD i default) iv then
        .error (.dupInterval (t.intervals.getD i default))
      else
        .ok { t with intervals := pyInsert i { iv with strict := t.strict } t.intervals }

/-- `IntervalTier.add`: construct the `Interval` (validating duration), set its
`strict` from the tier, then `addInterval`. -/
def IntervalTier.add (t : IntervalTier) (minT maxT : ℚ) (mark : String) :
    Except TGErr IntervalTier :=
  match intervalNew minT maxT mark with
  | .error e => .error e
  | .ok iv => t.addInterval { iv with strict := t.strict }

/-- Iterated `addInterval` (an insertion sequence into the tier). -/
def IntervalTier.addAll (t : IntervalTier) : List Interval → Except TGErr IntervalTier
  | [] => .ok t
  | x :: rest =>
    match t.addInterval x with
    | .error e => .error e
    | .ok t' => t'.addAll rest

/-- The loop of `bisect.bisect_left` over points; `Point.__lt__` on a `Point`
right operand compares `time` and cannot raise. -/
def bisectPtLoop (a : List Point) (x : Point) : Nat → Nat → Nat → Nat
  | 0, lo, _ => lo
  | fuel + 1, lo, hi =>
    if lo < hi then
      let mid := (lo + hi) / 2
      if (a.getD mid default).time < x.time then bisectPtLoop a x fuel (mid + 1) hi
      else bisectPtLoop a x fuel lo mid
    else lo

/-- `bisect_left(self.points, point)`. -/
def bisectPt (a : List Point) (x : Point) : Nat :=
  bisectPtLoop a x a.length 0 a.length

/-- Sorted, bounds-checked collection of points (class `PointTier`,
pointtier.py).  The source constructor does not set a `strict` attribute;
`TextGrid.append` creates it, and nothing ever reads it. -/
structure PointTier where
  name : String := ""
  minTime : ℚ := 0
  maxTime : Option ℚ := none
  points : List Point := []
  strict : Bool := true
deriving DecidableEq, Repr

/-- `PointTier.addPoint`: `point < self.minTime` compares the point against a
scalar (`Point.__lt__` numeric branch: `self.time < other`); the too-late
check fires only when `self.maxTime` is truthy; then `bisect_left`, a
duplicate-`time` check (`raise ValueError(point)`), and `insert`. -/
def PointTier.addPoint (t : PointTier) (p : Point) : Except TGErr PointTier :=
  if p.time < t.minTime then .error (.tooEarly t.minTime)
  else if truthyB t.maxTime && decide (qOf t.maxTime < p.time) then
    .error (.tooLate (qOf t.maxTime))
  else
    let i := bisectPt t.points p
    if i < t.points.length && decide ((t.points.getD i default).time = p.time) then
      .error (.dupPoint p)
    else
      .ok { t with points := pyInsert i p t.points }

/-- A tier of a `TextGrid` (the source stores heterogeneous `IntervalTier` /
`PointTier` objects in one list). -/
inductive Tier where
  | interval (t : IntervalTier)
  | point (t : PointTier)
deriving DecidableEq, Repr

/-- `tier.name`. -/
def Tier.name : Tier → String
  | .interval t => t.name
  | .point t => t.name

/-- `tier.minTime`. -/
def Tier.minTime : Tier → ℚ
  | .interval t => t.minTime
  | .point t => t.minTime

/-- `tier.maxTime`. -/
def Tier.maxTime : Tier → Option ℚ
  | .interval t => t.maxTime
  | .point t => t.maxTime

/-- `tier.strict = b` followed by `for i in tier: i.strict = b`
(the propagation loop of `TextGrid.append`).  On a `Point` the assignment
creates an attribute nothing reads; the modelled `Point` has no such field. -/
def Tier.setStrict (b : Bool) : Tier → Tier
  | .interval t =>
    .interval { t with strict := b,
                       intervals := t.intervals.map fun iv => { iv with strict := b } }
  | .point t => .point { t with strict := b }

/-- Ordered, named collection of tiers (class `TextGrid`, textgrid_data.py). -/
structure TextGrid where
  name : String := ""
  minTime : ℚ := 0
  maxTime : Option ℚ := none
  tiers : List Tier := []
  strict : Bool := true
deriving DecidableEq, Repr

/-- `TextGrid.append`: raises `ValueError(self.maxTime)` only when both the
grid's and the tier's `maxTime` are not `None` and the tier's exceeds the
grid's (there is no `minTime` check); then propagates `strict` to the tier and
its elements and appends. -/
def TextGrid.append (g : TextGrid) (tr : Tier) : Except TGErr TextGrid :=
  match g.maxTime, tr.maxTime with
  | some M, some mt =>
    if M < mt then .error (.tooLate M)
    else .ok { g with tiers := g.tiers ++ [tr.setStrict g.strict] }
  | _, _ => .ok { g with tiers := g.tiers ++ [tr.setStrict g.strict] }

/-- `TextGrid.extend`: `min`/`max` of the tiers' `minTime`s (the too-late
check really uses `max([t.minTime ...])`, not `maxTime`); raises on an empty
argument like Python's `min([])`; appends without propagating `strict`. -/
def TextGrid.extend (g : TextGrid) (ts : List Tier) : Except TGErr TextGrid :=
  match ts with
  | [] => .error .emptySeq
  | t0 :: rest =>
    let mn := rest.foldl (fun m t => min m t.minTime) t0.minTime
    let mx := rest.foldl (fun m t => max m t.minTime) t0.minTime
    if mn < g.minTime then .error (.tooEarly g.minTime)
    else if truthyB g.maxTime && decide (qOf g.maxTime < mx) then
      .error (.tooLate (qOf g.maxTime))
    else .ok { g with tiers := g.tiers ++ ts }

/-- `TextGrid.getNames`. -/
def TextGrid.getNames (g : TextGrid) : List String := g.tiers.map Tier.name

/-- The loop of `IntervalTier._fillInTheGaps` with its running `prev_t`,
including the final filler up to `self.maxTime` (emitted only when `maxTime`
is not `None` and `prev_t` is strictly below it). -/
def fillGapsFrom (fm : String) (prev : ℚ) (mx : Option ℚ) : List Interval → List Interval
  | [] =>
    match mx with
    | some m => if prev < m then [{ minTime := prev, maxTime := m, mark := fm, strict := true }] else []
    | none => []
  | iv :: rest =>
    (if prev < iv.minTime then [{ minTime := prev, maxTime := iv.minTime, mark := fm, strict := true }] else [])
      ++ iv :: fillGapsFrom fm iv.maxTime mx rest

/-- `IntervalTier._fillInTheGaps(null)`: a pure derivation of the gap-filled
element sequence used by the writers. -/
def IntervalTier.fillInTheGaps (t : IntervalTier) (fm : String) : List Interval :=
  fillGapsFrom fm t.minTime t.maxTime t.intervals

/-! ### The Praat TextGrid writer/reader (textgrid_data.py, utils.py)

One printed physical line of the long form becomes one `AbsLine` carrying the
printed key and payload.  `numL` stands for a `key = <float>` line, `intL`
for a `key = <int>` size line, `strL` for a `key = "<text>"` line whose
payload is the text exactly as printed between the quotes (so a mark appears
with its quotes already doubled), and `raw` for a structural line that the
reader skips or rejects. -/

inductive AbsLine where
  | numL (key : String) (v : ℚ)
  | intL (key : String) (n : Nat)
  | strL (key : String) (s : String)
  | raw (s : String)
deriving DecidableEq, Repr

/-- `_formatMark` / `mark.replace('"', '""')`: double every double quote. -/
def double (s : String) : String :=
  ⟨s.toList.foldr (fun c acc => if c = '"' then '"' :: '"' :: acc else c :: acc) []⟩

/-- Left-to-right `replace('""', '"')` as applied by `_getMark`: a doubled
quote emits one quote and advances two characters, anything else advances
one. -/
def undoubleAux : List Char → List Char
  | [] => []
  | [c] => [c]
  | c :: d :: cs =>
    if c = '"' ∧ d = '"' then '"' :: undoubleAux cs
    else c :: undoubleAux (d :: cs)

/-- The quote-undoubling of `_getMark`. -/
def undouble (s : String) : String := ⟨undoubleAux s.toList⟩

/-- The effective `xmax` written for the grid: `self.maxTime` when truthy,
else the maximum of the tiers' effective end times
(`t.maxTime if t.maxTime else t[-1].maxTime`).  `max([])` and `t[-1]` of an
empty tier raise in Python; outside that domain the fallback values here are
never produced. -/
def Tier.effMax : Tier → ℚ
  | .interval t =>
    match t.maxTime with
    | some m => if m = 0 then ((t.intervals.getLast?).map Interval.maxTime).getD 0 else m
    | none => ((t.intervals.getLast?).map Interval.maxTime).getD 0
  | .point t =>
    match t.maxTime with
    | some m => if m = 0 then 0 else m
    | none => 0

/-- The grid-level `maxT` computed by `TextGrid.write`. -/
def TextGrid.writeMaxT (g : TextGrid) : ℚ :=
  match g.maxTime with
  | some m => if m = 0 then (g.tiers.map Tier.effMax).foldl max 0 else m
  | none => (g.tiers.map Tier.effMax).foldl max 0

/-- The per-element lines printed for one gap-filled interval. -/
def ivLines (iv : Interval) : List AbsLine :=
  [.raw "intervals [j]:", .numL "xmin" iv.minTime, .numL "xmax" iv.maxTime,
   .strL "text" (double iv.mark)]

/-- The per-element lines printed for one point. -/
def ptLines (p : Point) : List AbsLine :=
  [.raw "points [k]:", .numL "time" p.time, .strL "mark" (double p.mark)]

/-- The lines printed for one tier by `TextGrid.write`: class tag, name
(written without quote doubling), `xmin`, the grid-level `maxT` as `xmax`,
the element count (after gap filling for an `IntervalTier`), then the
elements. -/
def tierLines (maxT : ℚ) (fm : String) : Tier → List AbsLine
  | .interval t =>
    let out := t.fillInTheGaps fm
    [.raw "item [i]:", .strL "class" "IntervalTier", .strL "name" t.name,
     .numL "xmin" t.minTime, .numL "xmax" maxT, .intL "intervals: size" out.length]
      ++ out.flatMap ivLines
  | .point t =>
    [.raw "item [i]:", .strL "class" "TextTier", .strL "name" t.name,
     .numL "xmin" t.minTime, .numL "xmax" maxT, .intL "points: size" t.points.length]
      ++ t.points.flatMap ptLines

/-- `TextGrid.write(f, null='')`: header (the `Object class` print ends with
an extra newline, hence the blank `raw` line), bounds, tier count, then the
tiers. -/
def TextGrid.write (g : TextGrid) (fm : String) : List AbsLine :=
  let maxT := g.writeMaxT
  [.strL "File type" "ooTextFile", .strL "Object class" "TextGrid", .raw "",
   .numL "xmin" g.minTime, .numL "xmax" maxT,
   .raw "tiers? <exists>", .intL "size" g.tiers.length, .raw "item []:"]
    ++ g.tiers.flatMap (tierLines maxT fm)

/-- `source.readline()`: at end of stream Python yields `''`. -/
def rdLine : List AbsLine → AbsLine × List AbsLine
  | [] => (.raw "", [])
  | l :: ls => (l, ls)

/-- Python exception propagation: an uncaught error aborts the surrounding
call, otherwise execution continues with the value. -/
def bindE (x : Except TGErr α) (f : α → Except TGErr β) : Except TGErr β :=
  match x with
  | .error e => .error e
  | .ok a => f a

/-- Result of `parse_line`: a float (rounded) or the text between the quotes. -/
inductive PVal where
  | q (v : ℚ)
  | s (str : String)
deriving DecidableEq, Repr

/-- `parse_line(line, short, to_round)`: a line containing `"` yields the text
between the quotes (no undoubling); otherwise the float after `=` rounded to
`to_round` digits (an integer literal parses as a float as well); a line with
neither fails.  On the abstract lines the `short` flag does not change the
outcome, only which surface syntax is accepted. -/
def parse_line (l : AbsLine) (toRound : Nat) : Except TGErr PVal :=
  match l with
  | .strL _ s => .ok (.s s)
  | .numL _ v => .ok (.q (pyRound v toRound))
  | .intL _ n => .ok (.q (pyRound (Rat.ofInt (n : ℤ)) toRound))
  | .raw s => .error (.parseErr s)

/-- Expect the float branch of `parse_line`. -/
def expectQ (r : Except TGErr PVal) : Except TGErr ℚ :=
  match r with
  | .ok (.q v) => .ok v
  | .ok (.s s) => .error (.parseErr s)
  | .error e => .error e

/-- Expect the string branch of `parse_line`. -/
def expectS (r : Except TGErr PVal) : Except TGErr String :=
  match r with
  | .ok (.s s) => .ok s
  | .ok (.q _) => .error (.parseErr "float")
  | .error e => .error e

/-- `int(parse_line(...))`: truncation of the parsed float (only nonnegative
sizes are written here). -/
def pvToNat (r : Except TGErr PVal) : Except TGErr Nat :=
  match r with
  | .ok (.q v) => .ok (ratFloor v).toNat
  | .ok (.s s) => .error (.parseErr s)
  | .error e => .error e

/-- `int(source.readline().strip().split()[2])` on a `size = <int>` line
(`int()` of a non-integer string raises). -/
def readSize (l : AbsLine) : Except TGErr Nat :=
  match l with
  | .intL _ n => .ok n
  | _ => .error (.parseErr "size")

/-- `_getMark(source, short)`: one logical `text = "..."` / `mark = "..."`
entry (multi-line accumulation until quote parity is abstracted into the one
`strL` line); checks the entry key in long form and undoubles the quotes. -/
def getMark (src : List AbsLine) : Except TGErr (String × List AbsLine) :=
  match rdLine src with
  | (.strL key s, rest) =>
    if key = "text" ∨ key = "mark" then .ok (undouble s, rest)
    else .error (.parseErr key)
  | (_, _) => .error (.parseErr "bad entry")

/-- Substring test used by `'short' in m.groups()[0]`. -/
def containsSub (pat s : List Char) : Bool := s.tails.any fun t => pat.isPrefixOf t

/-- `parse_header(source)`: the `File type = "..."` line must carry a type
starting with `ooTextFile`; the presence of `short` in it selects short-form
parsing; the object-class line is parsed and the following junk line
consumed. -/
def parseHeader (src : List AbsLine) : Except TGErr (String × Bool × List AbsLine) :=
  match rdLine src with
  | (.strL "File type" ft, r1) =>
    if ("ooTextFile".toList).isPrefixOf ft.toList then
      let short := containsSub "short".toList ft.toList
      let (l2, r2) := rdLine r1
      match expectS (parse_line l2 0) with
      | .error e => .error e
      | .ok ftype =>
        let (_, r3) := rdLine r2
        .ok (ftype, short, r3)
    else .error (.parseErr "header")
  | (_, _) => .error (.parseErr "header")

/-- The element loop of `TextGrid.read` for an `IntervalTier`: for each of the
`n` declared elements skip the long-form header line, parse the rounded
bounds, read the mark, and insert through `addInterval` only when
`jmin < jmax` (a degenerate interval is silently dropped). -/
def readIvs (t : IntervalTier) (short : Bool) :
    Nat → List AbsLine → Except TGErr (IntervalTier × List AbsLine)
  | 0, src => .ok (t, src)
  | k + 1, src =>
    let src := if short then src else (rdLine src).2
    let (l1, r1) := rdLine src
    bindE (expectQ (parse_line l1 5)) fun jmin =>
    let (l2, r2) := rdLine r1
    bindE (expectQ (parse_line l2 5)) fun jmax =>
    bindE (getMark r2) fun mk3 =>
    if jmin < jmax then
      bindE (intervalNew jmin jmax mk3.1) fun iv =>
      bindE (t.addInterval iv) fun t' =>
      readIvs t' short k mk3.2
    else readIvs t short k mk3.2

/-- The element loop of `TextGrid.read` for a `PointTier`: the per-point
header junk line is consumed unconditionally, then time and mark are read and
inserted through `addPoint`. -/
def readPts (t : PointTier) :
    Nat → List AbsLine → Except TGErr (PointTier × List AbsLine)
  | 0, src => .ok (t, src)
  | k + 1, src =>
    let src := (rdLine src).2
    let (l1, r1) := rdLine src
    bindE (expectQ (parse_line l1 5)) fun jtim =>
    bindE (getMark r1) fun mk2 =>
    bindE (t.addPoint { time := jtim, mark := mk2.1 }) fun t' =>
    readPts t' k mk2.2

/-- One tier of the `TextGrid.read` loop: skip the long-form item header,
dispatch on the class tag.  An `IntervalTier` receives the parsed name and
bounds and the grid's `strict`; for a point tier the parsed bounds are
discarded (`PointTier(inam)` keeps the constructor defaults). -/
def readTier (strict short : Bool) (src : List AbsLine) :
    Except TGErr (Tier × List AbsLine) :=
  let src := if short then src else (rdLine src).2
  let (lcls, r1) := rdLine src
  bindE (expectS (parse_line lcls 5)) fun cls =>
  let (lnam, r2) := rdLine r1
  bindE (expectS (parse_line lnam 5)) fun inam =>
  let (lmin, r3) := rdLine r2
  bindE (expectQ (parse_line lmin 5)) fun imin =>
  let (lmax, r4) := rdLine r3
  bindE (expectQ (parse_line lmax 5)) fun imax =>
  let (lcnt, r5) := rdLine r4
  bindE (pvToNat (parse_line lcnt 5)) fun n =>
  if cls = "IntervalTier" then
    let t0 : IntervalTier :=
      { name := inam, minTime := imin, maxTime := some imax,
        intervals := [], strict := strict }
    bindE (readIvs t0 short n r5) fun tr => .ok (.interval tr.1, tr.2)
  else
    let t0 : PointTier := { name := inam }
    bindE (readPts t0 n r5) fun tr => .ok (.point tr.1, tr.2)

/-- The tier loop of `TextGrid.read`: read each tier, then `self.append` it
(which validates bounds and propagates `strict`). -/
def readTiers (g : TextGrid) (short : Bool) :
    Nat → List AbsLine → Except TGErr (TextGrid × List AbsLine)
  | 0, src => .ok (g, src)
  | k + 1, src =>
    bindE (readTier g.strict short src) fun tr =>
    bindE (g.append tr.1) fun g' =>
    readTiers g' short k tr.2

/-- `TextGrid.read(f)` on the line stream: header, class check, short-form
autodetection (a failed parse of the first line past the header switches to
short form), bounds, junk, tier count, the long-form `item []:` line, then
the tier loop. -/
def TextGrid.read (g : TextGrid) (src : List AbsLine) : Except TGErr TextGrid :=
  bindE (parseHeader src) fun hd =>
  if hd.1 = "TextGrid" then
    let short0 := hd.2.1
    let r1 := hd.2.2
    let (l1, r2) := rdLine r1
    let short := match parse_line l1 5 with
      | .ok _ => short0
      | .error _ => true
    bindE (expectQ (parse_line l1 5)) fun mn =>
    let (l2, r3) := rdLine r2
    bindE (expectQ (parse_line l2 5)) fun mx =>
    let (_, r4) := rdLine r3
    let (lsz, r5) := rdLine r4
    bindE (readSize lsz) fun m =>
    let r6 := if short then r5 else (rdLine r5).2
    let g1 := { g with minTime := mn, maxTime := some mx }
    bindE (readTiers g1 short m r6) fun gr => .ok gr.1
  else .error (.parseErr "The file could not be parsed as a TextGrid as it is lacking a proper header.")

/-! ### The HTK MLF reader (mlf.py) -/

/-- Whitespace for `str.split()` / `str.rstrip()`. -/
def isWS (c : Char) : Bool := c = ' ' ∨ c = '\t' ∨ c = '\n' ∨ c = '\r'

/-- Accumulator loop of Python's `str.split()` (split on whitespace runs,
dropping empty fields). -/
def splitWSAux : List Char → List Char → List (List Char)
  | [], acc => if acc.isEmpty then [] else [acc.reverse]
  | c :: cs, acc =>
    if isWS c then
      if acc.isEmpty then splitWSAux cs [] else acc.reverse :: splitWSAux cs []
    else splitWSAux cs (c :: acc)

/-- Python's `str.split()`. -/
def pySplit (cs : List Char) : List (List Char) := splitWSAux cs []

/-- Python's `str.rstrip()`. -/
def pyRstrip (cs : List Char) : List Char := (cs.reverse.dropWhile isWS).reverse

/-- Numeric value of a digit string. -/
def digitsToNat (cs : List Char) : ℕ := cs.foldl (fun n c => 10 * n + (c.toNat - 48)) 0

/-- Python's `float()` on the unsigned decimal integer tokens HTK emits
(a non-numeric token raises `ValueError`, failing the read; the fractional
and signed literal forms `float` also accepts never occur in MLF times). -/
def pyFloat (cs : List Char) : Except TGErr ℚ :=
  if cs ≠ [] ∧ cs.all Char.isDigit then .ok (Rat.ofInt ((digitsToNat cs : ℕ) : ℤ))
  else .error (.parseErr (String.mk cs))

/-- The prefix of `cs` before its last `"`, when `cs` contains one (the
greedy `(.*)` of the filename regex). -/
def upToLastQuote : List Char → Option (List Char)
  | [] => none
  | c :: rest =>
    match upToLastQuote rest with
    | some inner => some (c :: inner)
    | none => if c = '"' then some [] else none

/-- `re.match('"(.*)"', line)`: the line must start with a quote and contain a
closing quote; the name is everything up to the last quote. -/
def mlfName (cs : List Char) : Option String :=
  match cs with
  | '"' :: rest => (upToLastQuote rest).map String.mk
  | _ => none

/-- `decode`: the source returns its argument unchanged (the UTF-8 unmangling
below the `return` is dead code). -/
def decode (s : String) : String := s

/-- The per-utterance record loop of `MLF.read`.  Each line is `rstrip`ped and
`split()`; a 4-field record adds a phone and starts a new pending word, a
3-field record adds a phone (with the short-pause special case) and extends
the pending word's end, and any other field count — including the `.`
terminator and end of stream, whose `readline()` yields `''` — flushes the
pending word unconditionally and seals the utterance. -/
def mlfLoop (sr : ℚ) (rdg : Nat) :
    List String → IntervalTier → IntervalTier → String → ℚ → ℚ →
    Except TGErr (IntervalTier × IntervalTier × List String)
  | [], phon, word, wmrk, wsrt, wend =>
    bindE (word.add wsrt wend wmrk) fun w => .ok (phon, w, [])
  | raw :: rest, phon, word, wmrk, wsrt, wend =>
    match pySplit (pyRstrip raw.toList) with
    | [f0, f1, f2, f3] =>
      bindE (pyFloat f0) fun n0 =>
      bindE (pyFloat f1) fun n1 =>
      let pmin := pyRound (n0 / sr) rdg
      let pmax := pyRound (n1 / sr) rdg
      if pmin = pmax then .error .nullDuration
      else
        bindE (phon.add pmin pmax (String.mk f2)) fun phon' =>
        bindE (if wmrk ≠ "" then word.add wsrt wend wmrk else .ok word) fun word' =>
        mlfLoop sr rdg rest phon' word' (decode (String.mk f3)) pmin pmax
    | [f0, f1, f2] =>
      bindE (pyFloat f0) fun n0 =>
      bindE (pyFloat f1) fun n1 =>
      let pmin := pyRound (n0 / sr) rdg
      let pmax := pyRound (n1 / sr) rdg
      if String.mk f2 = "sp" ∧ pmin ≠ pmax then
        bindE (if wmrk ≠ "" then word.add wsrt wend wmrk else .ok word) fun word' =>
        mlfLoop sr rdg rest phon word' (decode (String.mk f2)) pmin pmax
      else
        if pmin ≠ pmax then
          bindE (phon.add pmin pmax (String.mk f2)) fun phon' =>
          mlfLoop sr rdg rest phon' word wmrk wsrt pmax
        else mlfLoop sr rdg rest phon word wmrk wsrt pmax
    | _ =>
      bindE (word.add wsrt wend wmrk) fun w => .ok (phon, w, rest)

/-- The utterance loop of `MLF.read`: a quoted-filename line opens an
utterance with fresh `phones`/`words` tiers and zeroed accumulator; any other
line (or end of stream) closes the file.  The fuel is the line count: every
utterance consumes at least its name line, so the zero-fuel branch (yielding
the grids seen so far like the end-of-stream branch) is unreachable from
`MLF.read`'s initial fuel. -/
def mlfGo (sr : ℚ) (rdg : Nat) :
    Nat → List String → List TextGrid → Except TGErr (List TextGrid)
  | _, [], grids => .ok grids
  | 0, _ :: _, grids => .ok grids
  | fuel + 1, raw :: rest, grids =>
    match mlfName (pyRstrip raw.toList) with
    | none => .ok grids
    | some nm =>
      bindE (mlfLoop sr rdg rest
          { name := "phones", minTime := 0, maxTime := none, intervals := [], strict := true }
          { name := "words", minTime := 0, maxTime := none, intervals := [], strict := true }
          "" 0 0) fun pw =>
      let g0 : TextGrid :=
        { name := nm, minTime := 0, maxTime := none, tiers := [], strict := true }
      bindE (g0.append (.interval pw.1)) fun g1 =>
      bindE (g1.append (.interval pw.2.1)) fun g2 =>
      mlfGo sr rdg fuel pw.2.2 (grids ++ [g2])

/-- `MLF.read(f, samplerate, round_digits)`: skip the `#!MLF!#` header line,
then run the utterance loop. -/
def mlfRead (sr : ℚ) (rdg : Nat) (lines : List String) : Except TGErr (List TextGrid) :=
  mlfGo sr rdg (lines.length + 1) (lines.drop 1) []

/-! ### Observations

Claims compare tier names and element bounds/marks; these projections erase
the `strict` bookkeeping flag. -/

/-- Bounds and mark of an interval. -/
def Interval.obs (iv : Interval) : ℚ × ℚ × String := (iv.minTime, iv.maxTime, iv.mark)

/-- The observable content of a tier. -/
inductive TierObs where
  | ivs (l : List (ℚ × ℚ × String))
  | pts (l : List (ℚ × String))
deriving DecidableEq, Repr

/-- Name and elements of a tier. -/
def Tier.obs : Tier → String × TierObs
  | .interval t => (t.name, .ivs (t.intervals.map Interval.obs))
  | .point t => (t.name, .pts (t.points.map fun p => (p.time, p.mark)))

/-! ### Predicates used by the verification -/

/-- Shorthand for the comparison predicate steering `bisect_left`. -/
abbrev ltProbe (a : List Interval) (x : Interval) (j : Nat) : Prop :=
  (a.getD j default).minTime < x.minTime

/-- Comparison predicate of the point bisect. -/
abbrev ltProbePt (a : List Point) (x : Point) (j : Nat) : Prop :=
  (a.getD j default).time < x.time

/-- `CoversFrom a b l`: the intervals of `l` tile `[a, b]` exactly — the
first starts at `a`, consecutive elements abut, and the last ends at `b`
(for an empty `l` this forces `a = b`). -/
def CoversFrom (a b : ℚ) : List Interval → Prop
  | [] => a = b
  | iv :: rest => iv.minTime = a ∧ CoversFrom iv.maxTime b rest

instance : ∀ (a b : ℚ) (l : List Interval), Decidable (CoversFrom a b l)
  | _, _, [] => inferInstanceAs (Decidable (_ = _))
  | _, b, _ :: rest =>
    have := fun c => instDecidableCoversFrom c b rest
    inferInstanceAs (Decidable (_ ∧ _))

/-- What one tier of the written grid reads back as (after the reader's
`self.append`): an interval tier keeps name and `minTime`, its `xmax` becomes
the grid-level `maxT`, and its elements are the gap-filled sequence; a point
tier keeps only name and points (`PointTier(inam)` drops the parsed bounds). -/
def Tier.readBack (M : ℚ) (fm : String) : Tier → Tier
  | .interval t =>
    .interval
      { name := t.name, minTime := t.minTime, maxTime := some M,
        intervals := (t.fillInTheGaps fm).map fun e => { e with strict := true },
        strict := true }
  | .point t =>
    .point
      { name := t.name, minTime := 0, maxTime := none, points := t.points,
        strict := true }

/-- Hypotheses on an interval tier under which its written lines read back
(valid chained elements within bounds, everything rounded, a truthy
`maxTime` below the grid maximum). -/
def ivReadHyp (M : ℚ) (t : IntervalTier) : Prop :=
  pyRound t.minTime 5 = t.minTime ∧
  (t.intervals.Pairwise fun a b => a.maxTime ≤ b.minTime) ∧
  (∀ e ∈ t.intervals, e.minTime < e.maxTime ∧ t.minTime ≤ e.minTime ∧
      pyRound e.minTime 5 = e.minTime ∧ pyRound e.maxTime 5 = e.maxTime) ∧
  ∃ mt, t.maxTime = some mt ∧ mt ≠ 0 ∧ mt ≤ M ∧ pyRound mt 5 = mt ∧ t.minTime ≤ mt ∧
      ∀ e ∈ t.intervals, e.maxTime ≤ mt

/-- Hypotheses on a point tier under which its written lines read back
(strictly increasing nonnegative rounded times). -/
def ptReadHyp (t : PointTier) : Prop :=
  (t.points.Pairwise fun a b => a.time < b.time) ∧
  ∀ p ∈ t.points, 0 ≤ p.time ∧ pyRound p.time 5 = p.time

/-- The observable content a tier is written with: for an interval tier the
gap-filled element sequence, for a point tier the points. -/
def Tier.writeObs (fm : String) : Tier → String × TierObs
  | .interval t => (t.name, .ivs ((t.fillInTheGaps fm).map Interval.obs))
  | .point t => (t.name, .pts (t.points.map fun p => (p.time, p.mark)))

/-! ### Concrete test fixtures used by the claim witnesses/counterexamples -/

/-- The spec's scenario tier: "word" on `[0, 1]` holding only
`Interval(0.2, 0.5, "cat")`. -/
def wordTier : IntervalTier :=
  { name := "word", minTime := 0, maxTime := some 1,
    intervals := [{ minTime := 1/5, maxTime := 1/2, mark := "cat", strict := true }],
    strict := true }

/-- The spec's scenario grid: `xmin=0, xmax=1`, the one sparse "word" tier. -/
def gC1 : TextGrid :=
  { name := "", minTime := 0, maxTime := some 1, tiers := [.interval wordTier],
    strict := true }

/-- A strict tier on `[1, ∞)` holding `(1, 3)`: the probe `(0, 2)` overlaps
it but is out of bounds. -/
def tC3s : IntervalTier :=
  { name := "s", minTime := 1, maxTime := none,
    intervals := [{ minTime := 1, maxTime := 3, mark := "a", strict := true }],
    strict := true }

/-- A non-strict tier holding `(0, 2)`: the probe `(0, 2)` overlaps it with
equal bounds. -/
def tC3n : IntervalTier :=
  { name := "n", minTime := 0, maxTime := none,
    intervals := [{ minTime := 0, maxTime := 2, mark := "a", strict := false }],
    strict := false }

/-- The MLF utterance of the spec's scenario (header, filename, three phone
records — the last carrying the word label — and the terminator). -/
def c4lines : List String :=
  ["#!MLF!#", "\"test.lab\"", "0 500000 k", "500000 1200000 ae",
   "1200000 1800000 t cat", "."]

/-- An MLF stream whose utterance is cut short by a 2-field line. -/
def c5lines : List String :=
  ["#!MLF!#", "\"a.lab\"", "0 500000 k", "xx yy"]

/-- A grid whose `minTime` is above an incoming tier's. -/
def gC6 : TextGrid :=
  { name := "g", minTime := 1, maxTime := none, tiers := [], strict := true }

/-- A tier starting before `gC6` does. -/
def tC6 : IntervalTier :=
  { name := "a", minTime := 0, maxTime := none, intervals := [], strict := true }

/-- A grid with `maxTime = 1` for the `extend` counterexample. -/
def gC6x : TextGrid :=
  { name := "h", minTime := 0, maxTime := some 1, tiers := [], strict := true }

/-- A tier with no `maxTime` at all whose `minTime` exceeds `gC6x.maxTime`. -/
def tC6x : IntervalTier :=
  { name := "b", minTime := 2, maxTime := none, intervals := [], strict := true }

/-- A tier whose declared `maxTime` is `0.0` — set, but falsy. -/
def tC8 : IntervalTier :=
  { name := "t", minTime := 0, maxTime := some 0, intervals := [], strict := true }

/-- A non-strict tier, to watch whether `extend` propagates `strict`. -/
def tC6s : IntervalTier :=
  { name := "d", minTime := 0, maxTime := none, intervals := [], strict := false }

/-! ### Fidelity of the arithmetic helpers -/

@[simp] theorem bindE_ok (a : α) (f : α → Except TGErr β) : bindE (.ok a) f = f a := rfl

@[simp] theorem bindE_err (e : TGErr) (f : α → Except TGErr β) :
    bindE (.error e) f = (.error e : Except TGErr β) := rfl

/-- `ratFloor` is the mathematical floor. -/
theorem ratFloor_eq_floor (q : ℚ) : ratFloor q = ⌊q⌋ := by
  rw [Rat.floor_def, ratFloor, Int.fdiv_eq_ediv _ (by exact_mod_cast q.den_pos.le)]

/-- Unfolding `undoubleAux` past a non-quote head character. -/
theorem undoubleAux_cons_ne (c : Char) (l : List Char) (h : c ≠ '"') :
    undoubleAux (c :: l) = c :: undoubleAux l := by
  cases l with
  | nil => rfl
  | cons d rest => simp [undoubleAux, h]

/-- Unfolding `undoubleAux` past a doubled quote. -/
theorem undoubleAux_cons_quotes (l : List Char) :
    undoubleAux ('"' :: '"' :: l) = '"' :: undoubleAux l := by
  simp [undoubleAux]

/-- Quote undoubling inverts quote doubling on character lists. -/
theorem undoubleAux_doubleAux (cs : List Char) :
    undoubleAux (cs.foldr (fun c acc => if c = '"' then '"' :: '"' :: acc else c :: acc) []) = cs := by
  induction cs with
  | nil => rfl
  | cons c cs ih =>
    by_cases h : c = '"'
    · subst h
      have hstep : List.foldr (fun c acc => if c = '"' then '"' :: '"' :: acc else c :: acc)
          [] ('"' :: cs)
          = '"' :: '"' :: List.foldr (fun c acc => if c = '"' then '"' :: '"' :: acc else c :: acc) [] cs := by
        simp
      rw [hstep, undoubleAux_cons_quotes, ih]
    · simp only [List.foldr_cons, if_neg h]
      rw [undoubleAux_cons_ne c _ h, ih]

/-- `undouble` inverts `double` (marks with any quoting round-trip). -/
theorem undouble_double (s : String) : undouble (double s) = s := by
  cases s with
  | mk cs => exact congrArg String.mk (undoubleAux_doubleAux cs)

/-! ### The insertion-point search

`bisect_left` over a list sorted by `minTime` whose comparisons do not raise
returns the lower-bound position of the probe's `minTime`; over a strict
sorted non-overlapping tier it raises on the first overlapping element it
meets, and it meets one whenever one is in range. -/

/-- The bisect loop with non-raising comparisons computes the boundary of the
downward-closed region where `ltProbe` holds. -/
theorem bisectLoop_ok (a : List Interval) (x : Interval) :
    ∀ fuel lo hi, hi - lo ≤ fuel → lo ≤ hi → hi ≤ a.length →
    (∀ j, j < a.length →
      intervalLt (a.getD j default) x = .ok (decide (ltProbe a x j))) →
    (∀ i j, i ≤ j → j < a.length → ltProbe a x j → ltProbe a x i) →
    (∀ j, j < lo → ltProbe a x j) →
    (∀ j, hi ≤ j → j < a.length → ¬ ltProbe a x j) →
    ∃ r, bisectLoop a x fuel lo hi = .ok r ∧ lo ≤ r ∧ r ≤ hi ∧
      (∀ j, j < r → ltProbe a x j) ∧
      (∀ j, r ≤ j → j < a.length → ¬ ltProbe a x j) := by
  intro fuel
  induction fuel with
  | zero =>
    intro lo hi hfuel hlohi _ _ _ hbefore hafter
    have : lo = hi := by omega
    subst this
    exact ⟨lo, rfl, le_rfl, le_rfl, hbefore, hafter⟩
  | succ fuel ih =>
    intro lo hi hfuel hlohi hhi hcmp hdc hbefore hafter
    by_cases h : lo < hi
    · have hmidlo : lo ≤ (lo + hi) / 2 := by omega
      have hmidhi : (lo + hi) / 2 < hi := by omega
      have hmidlen : (lo + hi) / 2 < a.length := lt_of_lt_of_le hmidhi hhi
      by_cases hP : ltProbe a x ((lo + hi) / 2)
      · have hstep : bisectLoop a x (fuel + 1) lo hi
            = bisectLoop a x fuel ((lo + hi) / 2 + 1) hi := by
          simp only [bisectLoop, if_pos h, hcmp _ hmidlen, decide_eq_true hP]
        obtain ⟨r, hr, hr1, hr2, hr3, hr4⟩ :=
          ih ((lo + hi) / 2 + 1) hi (by omega) (by omega) hhi hcmp hdc
            (fun j hj => hdc j ((lo + hi) / 2) (by omega) hmidlen hP) hafter
        exact ⟨r, hstep ▸ hr, by omega, hr2, hr3, hr4⟩
      · have hstep : bisectLoop a x (fuel + 1) lo hi
            = bisectLoop a x fuel lo ((lo + hi) / 2) := by
          simp only [bisectLoop, if_pos h, hcmp _ hmidlen, decide_eq_false hP]
        obtain ⟨r, hr, hr1, hr2, hr3, hr4⟩ :=
          ih lo ((lo + hi) / 2) (by omega) (by omega) (le_of_lt hmidlen) hcmp hdc hbefore
            (fun j hj hjlen hPj => hP (hdc _ j hj hjlen hPj))
        exact ⟨r, hstep ▸ hr, hr1, by omega, hr3, hr4⟩
    · have : lo = hi := by omega
      subst this
      have : bisectLoop a x (fuel + 1) lo lo = .ok lo := by
        simp [bisectLoop]
      exact ⟨lo, this, le_rfl, le_rfl, hbefore, hafter⟩

/-- Over a valid, sorted, non-overlapping, all-strict region, the bisect loop
raises the overlap error on some element overlapping the probe whenever an
overlapping element lies in the search range. -/
theorem bisectLoop_err (a : List Interval) (x : Interval)
    (hsorted : ∀ i j, i < j → j < a.length →
      (a.getD i default).maxTime ≤ (a.getD j default).minTime)
    (hval : ∀ j, j < a.length → (a.getD j default).minTime < (a.getD j default).maxTime)
    (hstr : ∀ j, j < a.length → (a.getD j default).strict = true) :
    ∀ fuel lo hi, hi - lo ≤ fuel → hi ≤ a.length →
    ∀ e0, lo ≤ e0 → e0 < hi → (a.getD e0 default).overlapsB x = true →
    ∃ e, e ∈ a ∧ e.overlapsB x = true ∧
      bisectLoop a x fuel lo hi = .error (.overlapErr e x) := by
  intro fuel
  induction fuel with
  | zero => intro lo hi hfuel _ e0 he1 he2 _; omega
  | succ fuel ih =>
    intro lo hi hfuel hhi e0 he1 he2 hov
    have h : lo < hi := by omega
    set mid := (lo + hi) / 2 with hmid
    have hmidlo : lo ≤ mid := by omega
    have hmidhi : mid < hi := by omega
    have hmidlen : mid < a.length := lt_of_lt_of_le hmidhi hhi
    have he0len : e0 < a.length := lt_of_lt_of_le he2 hhi
    by_cases hovm : (a.getD mid default).overlapsB x = true
    · refine ⟨a.getD mid default, ?_, hovm, ?_⟩
      · rw [List.getD_eq_getElem a default hmidlen]
        exact List.getElem_mem hmidlen
      · have hc : ((a.getD mid default).strict && (a.getD mid default).overlapsB x) = true := by
          rw [hstr mid hmidlen, hovm]
          rfl
        have hraise : intervalLt (a.getD mid default) x
            = .error (.overlapErr (a.getD mid default) x) := by
          unfold intervalLt
          rw [hc]
          rfl
        simp only [bisectLoop, if_pos h, hraise]
    · have hovm' : (a.getD mid default).overlapsB x = false := by
        cases hsx : (a.getD mid default).overlapsB x
        · rfl
        · exact absurd hsx hovm
      have hc : ((a.getD mid default).strict && (a.getD mid default).overlapsB x) = false := by
        rw [hovm', Bool.and_false]
      have hcmp : intervalLt (a.getD mid default) x
          = .ok (decide ((a.getD mid default).minTime < x.minTime)) := by
        unfold intervalLt
        rw [hc]
        rfl
      have hne : e0 ≠ mid := by
        intro he
        rw [he, hovm'] at hov
        exact Bool.false_ne_true hov
      by_cases hP : (a.getD mid default).minTime < x.minTime
      · have he0gt : mid + 1 ≤ e0 := by
          rcases Nat.lt_or_ge e0 (mid + 1) with hlt | hge
          · exfalso
            have he0mid : e0 < mid := by omega
            have h1 := hsorted e0 mid he0mid hmidlen
            have h2 : x.minTime < (a.getD e0 default).maxTime := by
              have := hov
              simp only [Interval.overlapsB, Bool.and_eq_true, decide_eq_true_eq] at this
              exact this.1
            linarith
          · exact hge
        obtain ⟨e, he, hove, hrun⟩ :=
          ih (mid + 1) hi (by omega) hhi e0 he0gt he2 hov
        refine ⟨e, he, hove, ?_⟩
        have hstep : bisectLoop a x (fuel + 1) lo hi = bisectLoop a x fuel (mid + 1) hi := by
          simp only [bisectLoop, if_pos h, hcmp, decide_eq_true hP]
        rw [hstep]
        exact hrun
      · have he0lt : e0 < mid := by
          rcases Nat.lt_or_ge e0 mid with hlt | hge
          · exact hlt
          · exfalso
            have he0mid : mid < e0 := by omega
            have h1 := hsorted mid e0 he0mid he0len
            have hovm2 : ¬ (x.minTime < (a.getD mid default).maxTime
                ∧ (a.getD mid default).minTime < x.maxTime) := by
              intro hc
              apply hovm
              simp only [Interval.overlapsB, Bool.and_eq_true, decide_eq_true_eq]
              exact ⟨hc.1, hc.2⟩
            have hvm := hval mid hmidlen
            have hA : x.minTime < (a.getD mid default).maxTime := by
              have : x.minTime ≤ (a.getD mid default).minTime := le_of_not_lt hP
              linarith
            have hB : ¬ (a.getD mid default).minTime < x.maxTime := fun hb => hovm2 ⟨hA, hb⟩
            have h2 : (a.getD e0 default).minTime < x.maxTime := by
              have := hov
              simp only [Interval.overlapsB, Bool.and_eq_true, decide_eq_true_eq] at this
              exact this.2
            have : x.maxTime ≤ (a.getD mid default).minTime := le_of_not_lt hB
            linarith
        obtain ⟨e, he, hove, hrun⟩ :=
          ih lo mid (by omega) (le_of_lt hmidlen) e0 he1 he0lt hov
        refine ⟨e, he, hove, ?_⟩
        have hstep : bisectLoop a x (fuel + 1) lo hi = bisectLoop a x fuel lo mid := by
          simp only [bisectLoop, if_pos h, hcmp, decide_eq_false hP]
        rw [hstep]
        exact hrun

/-! ### Insertion at the search boundary -/

/-- Insertion at the end is `append`. -/
theorem pyInsert_length (x : α) (l : List α) : pyInsert l.length x l = l ++ [x] := by
  simp [pyInsert]

/-- An element of `l.take r` sits at an index below `r`. -/
theorem mem_take_getD {l : List α} {r : Nat} {e : α} (d : α) (he : e ∈ l.take r) :
    ∃ j, j < r ∧ j < l.length ∧ l.getD j d = e := by
  obtain ⟨i, hi, hieq⟩ := List.mem_iff_getElem.mp he
  have hi' : i < min r l.length := by simpa using hi
  have h1 : i < r := lt_of_lt_of_le hi' (min_le_left _ _)
  have h2 : i < l.length := lt_of_lt_of_le hi' (min_le_right _ _)
  refine ⟨i, h1, h2, ?_⟩
  rw [List.getD_eq_getElem l d h2, ← hieq]
  exact (List.getElem_take l).symm

/-- An element of `l.drop r` sits at an index at or above `r`. -/
theorem mem_drop_getD {l : List α} {r : Nat} {e : α} (d : α) (he : e ∈ l.drop r) :
    ∃ j, r ≤ j ∧ j < l.length ∧ l.getD j d = e := by
  obtain ⟨i, hi, hieq⟩ := List.mem_iff_getElem.mp he
  have hlen : r + i < l.length := by
    have := hi
    simp only [List.length_drop] at this
    omega
  refine ⟨r + i, Nat.le_add_right r i, hlen, ?_⟩
  rw [List.getD_eq_getElem l d hlen, ← hieq]
  exact (List.getElem_drop l).symm

/-- Pairwise order is preserved by inserting at a position that respects it. -/
theorem pyInsert_pairwise {R : α → α → Prop} (l : List α) (x : α) (r : Nat)
    (hP : l.Pairwise R)
    (hbef : ∀ e ∈ l.take r, R e x) (haft : ∀ e ∈ l.drop r, R x e) :
    (pyInsert r x l).Pairwise R := by
  have hsplit := List.pairwise_append.mp ((List.take_append_drop r l).symm ▸ hP)
  unfold pyInsert
  rw [List.pairwise_append, List.pairwise_cons]
  exact ⟨hsplit.1, ⟨haft, hsplit.2.1⟩,
    fun a ha b hb => (List.mem_cons.mp hb).elim (fun hbx => hbx ▸ hbef a ha)
      (fun hb' => hsplit.2.2 a ha b hb')⟩

/-- `pyInsert` is a permutation of `cons`. -/
theorem pyInsert_perm (r : Nat) (x : α) (l : List α) :
    List.Perm (pyInsert r x l) (x :: l) := by
  unfold pyInsert
  refine List.perm_middle.trans ?_
  rw [List.take_append_drop]

/-- `addInterval` on a tier whose comparisons with the probe do not raise
(sortedness by `minTime`, no duplicate bounds): it inserts the probe, with
`strict` overwritten, at the `bisect_left` boundary. -/
theorem addInterval_ok (t : IntervalTier) (x : Interval)
    (hb1 : ¬ x.minTime < t.minTime)
    (hb2 : (truthyB t.maxTime && decide (qOf t.maxTime < x.maxTime)) = false)
    (hcmp : ∀ e ∈ t.intervals, intervalLt e x = .ok (decide (e.minTime < x.minTime)))
    (hsorted : t.intervals.Pairwise (fun a b => a.minTime ≤ b.minTime))
    (hnodup : ∀ e ∈ t.intervals, intervalEqB e x = false) :
    ∃ r, r ≤ t.intervals.length ∧
      (∀ e ∈ t.intervals.take r, e.minTime < x.minTime) ∧
      (∀ e ∈ t.intervals.drop r, ¬ e.minTime < x.minTime) ∧
      t.addInterval x
        = .ok { t with intervals := pyInsert r { x with strict := t.strict } t.intervals } := by
  set a := t.intervals with ha
  have hcmp' : ∀ j, j < a.length →
      intervalLt (a.getD j default) x = .ok (decide (ltProbe a x j)) := by
    intro j hj
    have hmem : a.getD j default ∈ a := by
      rw [List.getD_eq_getElem a default hj]
      exact List.getElem_mem hj
    exact hcmp _ hmem
  have hdc : ∀ i j, i ≤ j → j < a.length → ltProbe a x j → ltProbe a x i := by
    intro i j hij hj hPj
    rcases Nat.lt_or_ge i j with hlt | hge
    · have hi : i < a.length := lt_of_lt_of_le hlt hj.le
      have hmono := (List.pairwise_iff_getElem.mp hsorted) i j hi hj hlt
      have hPj' : a[j].minTime < x.minTime := by
        rw [← List.getD_eq_getElem a default hj]
        exact hPj
      show (a.getD i default).minTime < x.minTime
      rw [List.getD_eq_getElem a default hi]
      exact lt_of_le_of_lt hmono hPj'
    · have : i = j := le_antisymm hij hge
      exact this ▸ hPj
  obtain ⟨r, hrun, _, hrhi, hbefore, hafter⟩ :=
    bisectLoop_ok a x a.length 0 a.length (by omega) (Nat.zero_le _) le_rfl hcmp' hdc
      (by omega) (by omega)
  have hbeft : ∀ e ∈ a.take r, e.minTime < x.minTime := by
    intro e he
    obtain ⟨j, hj1, hj2, hj3⟩ := mem_take_getD default he
    exact hj3 ▸ hbefore j hj1
  have haftt : ∀ e ∈ a.drop r, ¬ e.minTime < x.minTime := by
    intro e he
    obtain ⟨j, hj1, hj2, hj3⟩ := mem_drop_getD default he
    exact hj3 ▸ hafter j hj1 hj2
  refine ⟨r, hrhi, hbeft, haftt, ?_⟩
  unfold IntervalTier.addInterval
  rw [if_neg hb1]
  rw [show (truthyB t.maxTime && decide (qOf t.maxTime < x.maxTime)) = false from hb2]
  have hbis : bisectLt t.intervals x = .ok r := hrun
  simp only [Bool.false_eq_true, if_false, hbis]
  have hdup : (decide (r ≠ a.length) && intervalEqB (a.getD r default) x) = false := by
    rcases Nat.lt_or_ge r a.length with hlt | hge
    · have hmem : a.getD r default ∈ a := by
        rw [List.getD_eq_getElem a default hlt]
        exact List.getElem_mem hlt
      rw [hnodup _ hmem, Bool.and_false]
    · have : r = a.length := le_antisymm hrhi hge
      simp [this]
  rw [show (a : List Interval) = t.intervals from rfl] at hdup
  simp only [hdup, Bool.false_eq_true, if_false]

/-! ### Comparison helpers -/

/-- A comparison with a non-overlapping left operand never raises. -/
theorem intervalLt_of_no_overlap (e x : Interval) (h : e.overlapsB x = false) :
    intervalLt e x = .ok (decide (e.minTime < x.minTime)) := by
  unfold intervalLt
  rw [h, Bool.and_false]
  rfl

/-- A comparison with a non-strict left operand never raises. -/
theorem intervalLt_of_nonstrict (e x : Interval) (h : e.strict = false) :
    intervalLt e x = .ok (decide (e.minTime < x.minTime)) := by
  unfold intervalLt
  rw [h, Bool.false_and]
  rfl

/-- `overlaps` is symmetric. -/
theorem overlapsB_symm (a b : Interval) : a.overlapsB b = b.overlapsB a := by
  unfold Interval.overlapsB
  rw [Bool.and_comm]

/-- Two valid non-overlapping intervals are separated one way or the other. -/
theorem not_overlap_cases (a b : Interval)
    (h : a.overlapsB b = false) : a.maxTime ≤ b.minTime ∨ b.maxTime ≤ a.minTime := by
  by_cases h1 : b.minTime < a.maxTime
  · by_cases h2 : a.minTime < b.maxTime
    · exfalso
      have ht : a.overlapsB b = true := by
        simp [Interval.overlapsB, h1, h2]
      rw [ht] at h
      exact Bool.noConfusion h
    · exact Or.inr (le_of_not_lt h2)
  · exact Or.inl (le_of_not_lt h1)

/-- Valid chained intervals (`maxTime ≤` next `minTime`) are sorted by start. -/
theorem pairwise_minle_of_maxle (l : List Interval)
    (hval : ∀ e ∈ l, e.minTime < e.maxTime)
    (h : l.Pairwise fun a b => a.maxTime ≤ b.minTime) :
    l.Pairwise fun a b => a.minTime ≤ b.minTime := by
  refine List.Pairwise.imp_of_mem ?_ h
  intro a b hma _ hab
  exact le_of_lt (lt_of_lt_of_le (hval a hma) hab)

/-- Intervals with equal bounds (the `__eq__` of the duplicate check) overlap
whenever they are valid. -/
theorem overlapsB_of_eqB (e x : Interval) (hvx : x.minTime < x.maxTime)
    (h : intervalEqB e x = true) : e.overlapsB x = true := by
  have h' := h
  simp only [intervalEqB, Bool.and_eq_true, decide_eq_true_eq] at h'
  simp [Interval.overlapsB, h'.1, h'.2, hvx]

/-! ### The point-tier insertion -/

/-- The point bisect loop computes the boundary of the downward-closed region
where the probe time is above the element's. -/
theorem bisectPtLoop_ok (a : List Point) (x : Point) :
    ∀ fuel lo hi, hi - lo ≤ fuel → lo ≤ hi → hi ≤ a.length →
    (∀ i j, i ≤ j → j < a.length → ltProbePt a x j → ltProbePt a x i) →
    (∀ j, j < lo → ltProbePt a x j) →
    (∀ j, hi ≤ j → j < a.length → ¬ ltProbePt a x j) →
    lo ≤ bisectPtLoop a x fuel lo hi ∧ bisectPtLoop a x fuel lo hi ≤ hi ∧
      (∀ j, j < bisectPtLoop a x fuel lo hi → ltProbePt a x j) ∧
      (∀ j, bisectPtLoop a x fuel lo hi ≤ j → j < a.length → ¬ ltProbePt a x j) := by
  intro fuel
  induction fuel with
  | zero =>
    intro lo hi hfuel hlohi _ _ hbefore hafter
    have : lo = hi := by omega
    subst this
    exact ⟨le_rfl, le_rfl, hbefore, hafter⟩
  | succ fuel ih =>
    intro lo hi hfuel hlohi hhi hdc hbefore hafter
    by_cases h : lo < hi
    · have hmidlo : lo ≤ (lo + hi) / 2 := by omega
      have hmidhi : (lo + hi) / 2 < hi := by omega
      have hmidlen : (lo + hi) / 2 < a.length := lt_of_lt_of_le hmidhi hhi
      by_cases hP : ltProbePt a x ((lo + hi) / 2)
      · have hstep : bisectPtLoop a x (fuel + 1) lo hi
            = bisectPtLoop a x fuel ((lo + hi) / 2 + 1) hi := by
          simp only [bisectPtLoop, if_pos h, if_pos hP]
        obtain ⟨h1, h2, h3, h4⟩ :=
          ih ((lo + hi) / 2 + 1) hi (by omega) (by omega) hhi hdc
            (fun j hj => hdc j ((lo + hi) / 2) (by omega) hmidlen hP) hafter
        rw [hstep]
        exact ⟨by omega, h2, h3, h4⟩
      · have hstep : bisectPtLoop a x (fuel + 1) lo hi
            = bisectPtLoop a x fuel lo ((lo + hi) / 2) := by
          simp only [bisectPtLoop, if_pos h, if_neg hP]
        obtain ⟨h1, h2, h3, h4⟩ :=
          ih lo ((lo + hi) / 2) (by omega) (by omega) (le_of_lt hmidlen) hdc hbefore
            (fun j hj hjlen hPj => hP (hdc _ j hj hjlen hPj))
        rw [hstep]
        exact ⟨h1, by omega, h3, h4⟩
    · have : lo = hi := by omega
      subst this
      have : bisectPtLoop a x (fuel + 1) lo lo = lo := by
        simp [bisectPtLoop]
      rw [this]
      exact ⟨le_rfl, le_rfl, hbefore, hafter⟩

/-- `addPoint` on a sorted tier with no duplicate time inserts the point at
the `bisect_left` boundary. -/
theorem addPoint_ok (t : PointTier) (p : Point)
    (hb1 : ¬ p.time < t.minTime)
    (hb2 : (truthyB t.maxTime && decide (qOf t.maxTime < p.time)) = false)
    (hsorted : t.points.Pairwise fun a b => a.time ≤ b.time)
    (hnodup : ∀ q ∈ t.points, ¬ q.time = p.time) :
    ∃ r, r ≤ t.points.length ∧
      (∀ e ∈ t.points.take r, e.time < p.time) ∧
      (∀ e ∈ t.points.drop r, ¬ e.time < p.time) ∧
      t.addPoint p = .ok { t with points := pyInsert r p t.points } := by
  set a := t.points with ha
  have hdc : ∀ i j, i ≤ j → j < a.length → ltProbePt a p j → ltProbePt a p i := by
    intro i j hij hj hPj
    rcases Nat.lt_or_ge i j with hlt | hge
    · have hi : i < a.length := lt_of_lt_of_le hlt hj.le
      have hmono := (List.pairwise_iff_getElem.mp hsorted) i j hi hj hlt
      have hPj' : a[j].time < p.time := by
        rw [← List.getD_eq_getElem a default hj]
        exact hPj
      show (a.getD i default).time < p.time
      rw [List.getD_eq_getElem a default hi]
      exact lt_of_le_of_lt hmono hPj'
    · have : i = j := le_antisymm hij hge
      exact this ▸ hPj
  obtain ⟨hr1, hrhi, hbefore, hafter⟩ :=
    bisectPtLoop_ok a p a.length 0 a.length (by omega) (Nat.zero_le _) le_rfl hdc
      (by omega) (by omega)
  set r := bisectPtLoop a p a.length 0 a.length with hr
  have hbeft : ∀ e ∈ a.take r, e.time < p.time := by
    intro e he
    obtain ⟨j, hj1, hj2, hj3⟩ := mem_take_getD default he
    exact hj3 ▸ hbefore j hj1
  have haftt : ∀ e ∈ a.drop r, ¬ e.time < p.time := by
    intro e he
    obtain ⟨j, hj1, hj2, hj3⟩ := mem_drop_getD default he
    exact hj3 ▸ hafter j hj1 hj2
  refine ⟨r, hrhi, hbeft, haftt, ?_⟩
  unfold PointTier.addPoint
  rw [if_neg hb1]
  rw [show (truthyB t.maxTime && decide (qOf t.maxTime < p.time)) = false from hb2]
  have hbis : bisectPt t.points p = r := rfl
  simp only [Bool.false_eq_true, if_false, hbis]
  have hdup : (decide (r < a.length) && decide ((a.getD r default).time = p.time)) = false := by
    rcases Nat.lt_or_ge r a.length with hlt | hge
    · have hmem : a.getD r default ∈ a := by
        rw [List.getD_eq_getElem a default hlt]
        exact List.getElem_mem hlt
      rw [decide_eq_false (hnodup _ hmem), Bool.and_false]
    · rw [decide_eq_false (by omega : ¬ r < a.length), Bool.false_and]
  rw [show (a : List Point) = t.points from rfl] at hdup
  simp only [hdup, Bool.false_eq_true, if_false]

/-! ### Iterated insertion (claim C2's fold) -/

/-- Folding `addInterval` over pairwise non-overlapping, valid, in-bounds
intervals from a tier already satisfying the chain invariant succeeds, keeps
the chain invariant (sorted and non-overlapping), and holds exactly the old
and new elements. -/
theorem addAll_ok (l : List Interval) :
    ∀ (t : IntervalTier),
    (t.intervals.Pairwise fun a b => a.maxTime ≤ b.minTime) →
    (∀ e ∈ t.intervals, e.minTime < e.maxTime) →
    (∀ x ∈ l, x.minTime < x.maxTime) →
    (∀ x ∈ l, ¬ x.minTime < t.minTime ∧
      (truthyB t.maxTime && decide (qOf t.maxTime < x.maxTime)) = false) →
    (l.Pairwise fun a b => a.overlapsB b = false) →
    (∀ e ∈ t.intervals, ∀ x ∈ l, e.overlapsB x = false) →
    ∃ L, t.addAll l = .ok { t with intervals := L } ∧
      (L.Pairwise fun a b => a.maxTime ≤ b.minTime) ∧
      (∀ e ∈ L, e.minTime < e.maxTime) ∧
      List.Perm L (l.map (fun x => { x with strict := t.strict }) ++ t.intervals) := by
  induction l with
  | nil =>
    intro t hPt hvt _ _ _ _
    exact ⟨t.intervals, rfl, hPt, hvt, by simp⟩
  | cons x rest ih =>
    intro t hPt hvt hvl hbl hnov hcross
    have hvx : x.minTime < x.maxTime := hvl x (List.mem_cons_self x rest)
    have hcmp : ∀ e ∈ t.intervals, intervalLt e x = .ok (decide (e.minTime < x.minTime)) :=
      fun e he => intervalLt_of_no_overlap e x (hcross e he x (List.mem_cons_self x rest))
    have hsorted := pairwise_minle_of_maxle t.intervals hvt hPt
    have hnodup : ∀ e ∈ t.intervals, intervalEqB e x = false := by
      intro e he
      cases hq : intervalEqB e x
      · rfl
      · exact absurd (overlapsB_of_eqB e x hvx hq)
          (by rw [hcross e he x (List.mem_cons_self x rest)]; exact Bool.false_ne_true)
    obtain ⟨hb1, hb2⟩ := hbl x (List.mem_cons_self x rest)
    obtain ⟨r, hrlen, hbef, haft, hadd⟩ := addInterval_ok t x hb1 hb2 hcmp hsorted hnodup
    set x' : Interval := { x with strict := t.strict } with hx'
    set L1 := pyInsert r x' t.intervals with hL1
    have hmemL1 : ∀ e, e ∈ L1 ↔ e ∈ x' :: t.intervals :=
      fun e => (pyInsert_perm r x' t.intervals).mem_iff
    have hPt1 : L1.Pairwise fun a b => a.maxTime ≤ b.minTime := by
      refine pyInsert_pairwise t.intervals x' r hPt ?_ ?_
      · intro e he
        have hev : e.minTime < e.maxTime := hvt e (List.mem_of_mem_take he)
        have hlt := hbef e he
        rcases not_overlap_cases e x
            (hcross e (List.mem_of_mem_take he) x (List.mem_cons_self x rest)) with hc | hc
        · exact hc
        · exact absurd hlt (not_lt.mpr (le_trans hvx.le hc))
      · intro e he
        have hev : e.minTime < e.maxTime := hvt e (List.mem_of_mem_drop he)
        have hge := haft e he
        rcases not_overlap_cases e x
            (hcross e (List.mem_of_mem_drop he) x (List.mem_cons_self x rest)) with hc | hc
        · exact absurd (lt_of_lt_of_le hev hc) (by exact fun hlt => hge hlt)
        · exact hc
    have hvt1 : ∀ e ∈ L1, e.minTime < e.maxTime := by
      intro e he
      rcases List.mem_cons.mp ((hmemL1 e).mp he) with rfl | he'
      · exact hvx
      · exact hvt e he'
    have hbl1 : ∀ y ∈ rest, ¬ y.minTime < t.minTime ∧
        (truthyB t.maxTime && decide (qOf t.maxTime < y.maxTime)) = false :=
      fun y hy => hbl y (List.mem_cons_of_mem x hy)
    have hcross1 : ∀ e ∈ L1, ∀ y ∈ rest, e.overlapsB y = false := by
      intro e he y hy
      rcases List.mem_cons.mp ((hmemL1 e).mp he) with rfl | he'
      · exact List.rel_of_pairwise_cons hnov hy
      · exact hcross e he' y (List.mem_cons_of_mem x hy)
    obtain ⟨L, hrun, hPL, hvL, hperm⟩ :=
      ih { t with intervals := L1 } hPt1 hvt1
        (fun y hy => hvl y (List.mem_cons_of_mem x hy)) hbl1
        (hnov.sublist (List.sublist_cons_self x rest)) hcross1
    refine ⟨L, ?_, hPL, hvL, ?_⟩
    · show t.addAll (x :: rest) = .ok { t with intervals := L }
      unfold IntervalTier.addAll
      rw [hadd]
      exact hrun
    · refine hperm.trans ?_
      have h1 : List.Perm (rest.map (fun y => { y with strict := t.strict }) ++ L1)
          (rest.map (fun y => { y with strict := t.strict }) ++ x' :: t.intervals) :=
        List.Perm.append_left _ (pyInsert_perm r x' t.intervals)
      refine h1.trans ?_
      exact List.perm_middle.trans (by rfl)

/-! ### Coverage of the gap filling (claim C7) -/

/-- An exact tiling has abutting consecutive elements. -/
theorem CoversFrom.chain : ∀ {a b : ℚ} {l : List Interval}, CoversFrom a b l →
    l.Chain' fun x y => x.maxTime = y.minTime
  | _, _, [], _ => List.chain'_nil
  | _, _, [_], _ => List.chain'_singleton _
  | _, _, x :: y :: l, h => by
    rcases h with ⟨hx, hy, hrest⟩
    exact List.Chain'.cons hy.symm (CoversFrom.chain ⟨hy, hrest⟩)

/-- An exact tiling of a nonempty list starts at the left end. -/
theorem CoversFrom.head : ∀ {a b : ℚ} {l : List Interval}, CoversFrom a b l →
    l ≠ [] → l.head?.map Interval.minTime = some a
  | _, _, [], _, hne => absurd rfl hne
  | _, _, x :: l, h, _ => by simp [h.1]

/-- An exact tiling of a nonempty list ends at the right end. -/
theorem CoversFrom.last : ∀ {a b : ℚ} {l : List Interval}, CoversFrom a b l →
    l ≠ [] → l.getLast?.map Interval.maxTime = some b
  | _, _, [], _, hne => absurd rfl hne
  | _, _, [x], h, _ => by
    have h2 : x.maxTime = _ := h.2
    simp [h2]
  | _, _, x :: y :: l, h, _ => CoversFrom.last h.2 (by simp) ▸ (by
    rw [List.getLast?_cons_cons])

/-- The gap-filled sequence tiles `[prev, m]` exactly. -/
theorem fillGapsFrom_covers (fm : String) (m : ℚ) :
    ∀ (l : List Interval) (prev : ℚ),
    (∀ e ∈ l, prev ≤ e.minTime) → prev ≤ m →
    (∀ e ∈ l, e.maxTime ≤ m) →
    (l.Pairwise fun a b => a.maxTime ≤ b.minTime) →
    (∀ e ∈ l, e.minTime < e.maxTime) →
    CoversFrom prev m (fillGapsFrom fm prev (some m) l) := by
  intro l
  induction l with
  | nil =>
    intro prev _ hpm _ _ _
    by_cases h : prev < m
    · simp only [fillGapsFrom, if_pos h]
      exact ⟨rfl, rfl⟩
    · simp only [fillGapsFrom, if_neg h]
      exact le_antisymm hpm (le_of_not_lt h)
  | cons iv rest ih =>
    intro prev hpl hpm hml hsorted hval
    have hvi : iv.minTime < iv.maxTime := hval iv (List.mem_cons_self iv rest)
    have hrec : CoversFrom iv.maxTime m (fillGapsFrom fm iv.maxTime (some m) rest) :=
      ih iv.maxTime (fun e he => List.rel_of_pairwise_cons hsorted he)
        (hml iv (List.mem_cons_self iv rest))
        (fun e he => hml e (List.mem_cons_of_mem iv he))
        (List.Pairwise.of_cons hsorted)
        (fun e he => hval e (List.mem_cons_of_mem iv he))
    by_cases h : prev < iv.minTime
    · simp only [fillGapsFrom, if_pos h, List.singleton_append]
      exact ⟨rfl, rfl, hrec⟩
    · have : iv.minTime = prev :=
        le_antisymm (le_of_not_lt h) (hpl iv (List.mem_cons_self iv rest))
      simp only [fillGapsFrom, if_neg h, List.nil_append]
      exact ⟨this, hrec⟩

/-- Every element of the gap-filled sequence is valid and lies in
`[prev, m]`. -/
theorem fillGapsFrom_bounds (fm : String) (m : ℚ) :
    ∀ (l : List Interval) (prev : ℚ),
    (∀ e ∈ l, prev ≤ e.minTime) → prev ≤ m →
    (∀ e ∈ l, e.maxTime ≤ m) →
    (l.Pairwise fun a b => a.maxTime ≤ b.minTime) →
    (∀ e ∈ l, e.minTime < e.maxTime) →
    ∀ e ∈ fillGapsFrom fm prev (some m) l,
      e.minTime < e.maxTime ∧ prev ≤ e.minTime ∧ e.maxTime ≤ m := by
  intro l
  induction l with
  | nil =>
    intro prev _ hpm _ _ _ e he
    by_cases h : prev < m
    · simp only [fillGapsFrom, if_pos h, List.mem_singleton] at he
      subst he
      exact ⟨h, le_rfl, le_rfl⟩
    · simp only [fillGapsFrom, if_neg h] at he
      exact absurd he (List.not_mem_nil e)
  | cons iv rest ih =>
    intro prev hpl hpm hml hsorted hval e he
    have hvi : iv.minTime < iv.maxTime := hval iv (List.mem_cons_self iv rest)
    have hpi : prev ≤ iv.minTime := hpl iv (List.mem_cons_self iv rest)
    have hmi : iv.maxTime ≤ m := hml iv (List.mem_cons_self iv rest)
    have hrec := ih iv.maxTime (fun e he => List.rel_of_pairwise_cons hsorted he) hmi
      (fun e he => hml e (List.mem_cons_of_mem iv he))
      (List.Pairwise.of_cons hsorted)
      (fun e he => hval e (List.mem_cons_of_mem iv he))
    by_cases h : prev < iv.minTime
    · simp only [fillGapsFrom, if_pos h, List.singleton_append, List.mem_cons] at he
      rcases he with rfl | rfl | he'
      · exact ⟨h, le_rfl, le_trans hvi.le hmi⟩
      · exact ⟨hvi, hpi, hmi⟩
      · obtain ⟨h1, h2, h3⟩ := hrec e he'
        exact ⟨h1, le_trans (le_trans hpi hvi.le) h2, h3⟩
    · simp only [fillGapsFrom, if_neg h, List.nil_append, List.mem_cons] at he
      rcases he with rfl | he'
      · exact ⟨hvi, hpi, hmi⟩
      · obtain ⟨h1, h2, h3⟩ := hrec e he'
        exact ⟨h1, le_trans (le_trans hpi hvi.le) h2, h3⟩

/-- A time predicate holding at `prev`, `m` and every element bound holds at
every bound of the gap-filled sequence (used with "rounded to 5 digits"). -/
theorem fillGapsFrom_pred (P : ℚ → Prop) (fm : String) (m : ℚ) :
    ∀ (l : List Interval) (prev : ℚ),
    P prev → P m → (∀ e ∈ l, P e.minTime ∧ P e.maxTime) →
    ∀ e ∈ fillGapsFrom fm prev (some m) l, P e.minTime ∧ P e.maxTime := by
  intro l
  induction l with
  | nil =>
    intro prev hprev hm _ e he
    by_cases h : prev < m
    · simp only [fillGapsFrom, if_pos h, List.mem_singleton] at he
      subst he
      exact ⟨hprev, hm⟩
    · simp only [fillGapsFrom, if_neg h] at he
      exact absurd he (List.not_mem_nil e)
  | cons iv rest ih =>
    intro prev hprev hm hl e he
    have hiv := hl iv (List.mem_cons_self iv rest)
    have hrec := ih iv.maxTime hiv.2 hm (fun e he => hl e (List.mem_cons_of_mem iv he))
    by_cases h : prev < iv.minTime
    · simp only [fillGapsFrom, if_pos h, List.singleton_append, List.mem_cons] at he
      rcases he with rfl | rfl | he'
      · exact ⟨hprev, hiv.1⟩
      · exact hiv
      · exact hrec e he'
    · simp only [fillGapsFrom, if_neg h, List.nil_append, List.mem_cons] at he
      rcases he with rfl | he'
      · exact hiv
      · exact hrec e he'

/-- Abutting valid intervals satisfy the chain invariant. -/
theorem pairwise_maxle_of_chain :
    ∀ (l : List Interval), (∀ e ∈ l, e.minTime < e.maxTime) →
    l.Chain' (fun a b => a.maxTime = b.minTime) →
    l.Pairwise fun a b => a.maxTime ≤ b.minTime
  | [], _, _ => List.Pairwise.nil
  | [a], _, _ => by simp
  | a :: hd :: tl, hval, hch => by
    have hch' := hch
    rw [List.chain'_cons] at hch'
    have ihp := pairwise_maxle_of_chain (hd :: tl)
      (fun e he => hval e (List.mem_cons_of_mem a he)) hch'.2
    rw [List.pairwise_cons]
    refine ⟨?_, ihp⟩
    intro b hb
    rcases List.mem_cons.mp hb with rfl | hb'
    · exact le_of_eq hch'.1
    · have h1 : hd.maxTime ≤ b.minTime := List.rel_of_pairwise_cons ihp hb'
      have h2 : hd.minTime < hd.maxTime := hval hd (List.mem_cons_of_mem a (List.mem_cons_self hd tl))
      exact le_trans (le_of_eq hch'.1) (le_trans h2.le h1)

/-! ### Integer values are fixed by `pyRound` -/

/-- `ratFloor` of an integer. -/
theorem ratFloor_ofInt (k : ℤ) : ratFloor (Rat.ofInt k) = k := by
  unfold ratFloor
  rw [show (Rat.ofInt k).num = k from rfl, show (Rat.ofInt k).den = 1 from rfl]
  exact Int.fdiv_one k

/-- `Rat.ofInt` agrees with the coercion. -/
theorem ratOfInt_eq (k : ℤ) : Rat.ofInt k = (k : ℚ) := rfl

/-- `roundHalfEven` of an integer. -/
theorem roundHalfEven_ofInt (k : ℤ) : roundHalfEven (Rat.ofInt k) = k := by
  unfold roundHalfEven
  rw [ratFloor_ofInt]
  rw [if_pos]
  rw [sub_self]
  norm_num

/-- `pyRound` fixes integers. -/
theorem pyRound_ofInt (n : ℤ) (d : Nat) : pyRound (Rat.ofInt n) d = Rat.ofInt n := by
  show Rat.ofInt (roundHalfEven (Rat.ofInt n * Rat.ofInt ((10 ^ d : ℕ) : ℤ)))
      / Rat.ofInt ((10 ^ d : ℕ) : ℤ) = Rat.ofInt n
  have hmul : Rat.ofInt n * Rat.ofInt ((10 ^ d : ℕ) : ℤ) = Rat.ofInt (n * ((10 ^ d : ℕ) : ℤ)) := by
    rw [ratOfInt_eq, ratOfInt_eq, ratOfInt_eq]
    push_cast
    ring
  rw [hmul, roundHalfEven_ofInt]
  rw [ratOfInt_eq, ratOfInt_eq]
  have hne : (((10 ^ d : ℕ) : ℤ) : ℚ) ≠ 0 := by positivity
  push_cast
  field_simp

/-- The size line written as an integer parses back through
`int(parse_line(...))` as itself. -/
theorem pvToNat_intL (key : String) (n : Nat) (d : Nat) :
    pvToNat (parse_line (.intL key n) d) = .ok n := by
  show Except.ok (ratFloor (pyRound (Rat.ofInt (n : ℤ)) d)).toNat = Except.ok n
  rw [pyRound_ofInt, ratFloor_ofInt]
  simp

/-! ### Reading back the written elements -/

/-- `_getMark` on a written `text = "..."` entry. -/
theorem getMark_text (s : String) (rest : List AbsLine) :
    getMark (.strL "text" s :: rest) = .ok (undouble s, rest) := by
  show (if ("text" : String) = "text" ∨ ("text" : String) = "mark"
      then Except.ok (undouble s, rest) else Except.error (.parseErr "text"))
    = Except.ok (undouble s, rest)
  rw [if_pos (Or.inl rfl)]

/-- `_getMark` on a written `mark = "..."` entry. -/
theorem getMark_mark (s : String) (rest : List AbsLine) :
    getMark (.strL "mark" s :: rest) = .ok (undouble s, rest) := by
  show (if ("mark" : String) = "text" ∨ ("mark" : String) = "mark"
      then Except.ok (undouble s, rest) else Except.error (.parseErr "mark"))
    = Except.ok (undouble s, rest)
  rw [if_pos (Or.inr rfl)]

/-- Inserting an interval that comes after every element of a chained valid
tier appends it at the end. -/
theorem addInterval_append (t : IntervalTier) (x : Interval)
    (hb1 : ¬ x.minTime < t.minTime)
    (hb2 : (truthyB t.maxTime && decide (qOf t.maxTime < x.maxTime)) = false)
    (hPt : t.intervals.Pairwise fun a b => a.maxTime ≤ b.minTime)
    (hvt : ∀ e ∈ t.intervals, e.minTime < e.maxTime)
    (hall : ∀ e ∈ t.intervals, e.maxTime ≤ x.minTime)
    (hvx : x.minTime < x.maxTime) :
    t.addInterval x = .ok { t with intervals := t.intervals ++ [{ x with strict := t.strict }] } := by
  have hnov : ∀ e ∈ t.intervals, e.overlapsB x = false := by
    intro e he
    have : ¬ x.minTime < e.maxTime := not_lt.mpr (hall e he)
    simp [Interval.overlapsB, this]
  have hcmp : ∀ e ∈ t.intervals, intervalLt e x = .ok (decide (e.minTime < x.minTime)) :=
    fun e he => intervalLt_of_no_overlap e x (hnov e he)
  have hsorted := pairwise_minle_of_maxle t.intervals hvt hPt
  have hnodup : ∀ e ∈ t.intervals, intervalEqB e x = false := by
    intro e he
    cases hq : intervalEqB e x
    · rfl
    · exfalso
      have h' := hq
      simp only [intervalEqB, Bool.and_eq_true, decide_eq_true_eq] at h'
      have h1 : x.maxTime ≤ x.minTime := h'.2 ▸ hall e he
      exact absurd hvx (not_lt.mpr h1)
  obtain ⟨r, hrlen, hbef, haft, hadd⟩ := addInterval_ok t x hb1 hb2 hcmp hsorted hnodup
  have hr : r = t.intervals.length := by
    rcases Nat.lt_or_ge r t.intervals.length with hlt | hge
    · exfalso
      have hne : t.intervals.drop r ≠ [] := by
        rw [Ne, List.drop_eq_nil_iff]
        omega
      obtain ⟨e, he⟩ := List.exists_mem_of_ne_nil _ hne
      have h1 : e.minTime < x.minTime :=
        lt_of_lt_of_le (hvt e (List.mem_of_mem_drop he)) (hall e (List.mem_of_mem_drop he))
      exact haft e he h1
    · omega
  rw [hr, pyInsert_length] at hadd
  exact hadd

/-- The element loop of the reader run over the lines written for a chained,
valid, rounded, in-bounds element sequence appends exactly those elements,
with the tier's `strict` flag. -/
theorem readIvs_ok :
    ∀ (out : List Interval) (t : IntervalTier) (rest : List AbsLine),
    (t.intervals.Pairwise fun a b => a.maxTime ≤ b.minTime) →
    (∀ e ∈ t.intervals, e.minTime < e.maxTime) →
    (out.Pairwise fun a b => a.maxTime ≤ b.minTime) →
    (∀ e ∈ out, e.minTime < e.maxTime) →
    (∀ e ∈ t.intervals, ∀ x ∈ out, e.maxTime ≤ x.minTime) →
    (∀ e ∈ out, pyRound e.minTime 5 = e.minTime ∧ pyRound e.maxTime 5 = e.maxTime) →
    (∀ e ∈ out, ¬ e.minTime < t.minTime) →
    (∀ e ∈ out, (truthyB t.maxTime && decide (qOf t.maxTime < e.maxTime)) = false) →
    readIvs t false out.length (out.flatMap ivLines ++ rest)
      = .ok ({ t with intervals := t.intervals ++ out.map fun e => { e with strict := t.strict } },
             rest)
  | [], t, rest, _, _, _, _, _, _, _, _ => by
    simp [readIvs]
  | iv :: out', t, rest, hPt, hvt, hPo, hvo, hcross, hrnd, hlo, hhi => by
    have hvi : iv.minTime < iv.maxTime := hvo iv (List.mem_cons_self iv out')
    have hr1 : pyRound iv.minTime 5 = iv.minTime := (hrnd iv (List.mem_cons_self iv out')).1
    have hr2 : pyRound iv.maxTime 5 = iv.maxTime := (hrnd iv (List.mem_cons_self iv out')).2
    have hnew : intervalNew iv.minTime iv.maxTime iv.mark
        = .ok { minTime := iv.minTime, maxTime := iv.maxTime, mark := iv.mark, strict := true } := by
      unfold intervalNew
      rw [if_neg (not_le.mpr hvi)]
    have hadd := addInterval_append t
        { minTime := iv.minTime, maxTime := iv.maxTime, mark := iv.mark, strict := true }
        (hlo iv (List.mem_cons_self iv out')) (hhi iv (List.mem_cons_self iv out'))
        hPt hvt (fun e he => hcross e he iv (List.mem_cons_self iv out')) hvi
    set t1 : IntervalTier := { t with intervals := t.intervals
        ++ [{ minTime := iv.minTime, maxTime := iv.maxTime, mark := iv.mark,
              strict := t.strict }] } with ht1
    have hstep : readIvs t false (iv :: out').length ((iv :: out').flatMap ivLines ++ rest)
        = readIvs t1 false out'.length (out'.flatMap ivLines ++ rest) := by
      have hlines : (iv :: out').flatMap ivLines ++ rest
          = AbsLine.raw "intervals [j]:" :: AbsLine.numL "xmin" iv.minTime
            :: AbsLine.numL "xmax" iv.maxTime :: AbsLine.strL "text" (double iv.mark)
            :: (out'.flatMap ivLines ++ rest) := by
        simp [ivLines]
      rw [hlines, List.length_cons]
      simp only [readIvs, rdLine, Bool.false_eq_true, if_false, parse_line, expectQ,
        bindE_ok, getMark_text, undouble_double, hr1, hr2]
      rw [if_pos hvi, hnew]
      simp only [bindE_ok]
      rw [hadd]
      simp only [bindE_ok]
    rw [hstep]
    have hrec := readIvs_ok out' t1 rest
      (by
        rw [ht1]
        show (t.intervals ++ [_]).Pairwise _
        rw [List.pairwise_append]
        refine ⟨hPt, by simp, ?_⟩
        intro a ha b hb
        rw [List.mem_singleton] at hb
        subst hb
        exact hcross a ha iv (List.mem_cons_self iv out'))
      (by
        intro e he
        rw [ht1] at he
        rcases List.mem_append.mp he with h | h
        · exact hvt e h
        · rw [List.mem_singleton] at h
          subst h
          exact hvi)
      (hPo.of_cons)
      (fun e he => hvo e (List.mem_cons_of_mem iv he))
      (by
        intro e he x hx
        rw [ht1] at he
        rcases List.mem_append.mp he with h | h
        · exact hcross e h x (List.mem_cons_of_mem iv hx)
        · rw [List.mem_singleton] at h
          subst h
          exact List.rel_of_pairwise_cons hPo hx)
      (fun e he => hrnd e (List.mem_cons_of_mem iv he))
      (fun e he => hlo e (List.mem_cons_of_mem iv he))
      (fun e he => hhi e (List.mem_cons_of_mem iv he))
    rw [hrec]
    rw [ht1]
    simp [List.append_assoc]

/-- Inserting a point later than every element of a sorted point tier appends
it at the end. -/
theorem addPoint_append (t : PointTier) (p : Point)
    (hb1 : ¬ p.time < t.minTime)
    (hb2 : (truthyB t.maxTime && decide (qOf t.maxTime < p.time)) = false)
    (hsorted : t.points.Pairwise fun a b => a.time ≤ b.time)
    (hall : ∀ e ∈ t.points, e.time < p.time) :
    t.addPoint p = .ok { t with points := t.points ++ [p] } := by
  have hnodup : ∀ q ∈ t.points, ¬ q.time = p.time :=
    fun q hq => ne_of_lt (hall q hq)
  obtain ⟨r, hrlen, hbef, haft, hadd⟩ := addPoint_ok t p hb1 hb2 hsorted hnodup
  have hr : r = t.points.length := by
    rcases Nat.lt_or_ge r t.points.length with hlt | hge
    · exfalso
      have hne : t.points.drop r ≠ [] := by
        rw [Ne, List.drop_eq_nil_iff]
        omega
      obtain ⟨e, he⟩ := List.exists_mem_of_ne_nil _ hne
      exact haft e he (hall e (List.mem_of_mem_drop he))
    · omega
  rw [hr, pyInsert_length] at hadd
  exact hadd

/-- The point loop of the reader run over the lines written for a sorted,
rounded, nonnegative point sequence appends exactly those points. -/
theorem readPts_ok :
    ∀ (out : List Point) (t : PointTier) (rest : List AbsLine),
    (t.points.Pairwise fun a b => a.time ≤ b.time) →
    (out.Pairwise fun a b => a.time < b.time) →
    (∀ e ∈ t.points, ∀ x ∈ out, e.time < x.time) →
    (∀ p ∈ out, pyRound p.time 5 = p.time) →
    (∀ p ∈ out, ¬ p.time < t.minTime) →
    (∀ p ∈ out, (truthyB t.maxTime && decide (qOf t.maxTime < p.time)) = false) →
    readPts t out.length (out.flatMap ptLines ++ rest)
      = .ok ({ t with points := t.points ++ out }, rest)
  | [], t, rest, _, _, _, _, _, _ => by
    simp [readPts]
  | p :: out', t, rest, hPt, hPo, hcross, hrnd, hlo, hhi => by
    have hr1 : pyRound p.time 5 = p.time := hrnd p (List.mem_cons_self p out')
    have hadd := addPoint_append t ⟨p.time, p.mark⟩
        (hlo p (List.mem_cons_self p out')) (hhi p (List.mem_cons_self p out'))
        hPt (fun e he => hcross e he p (List.mem_cons_self p out'))
    set t1 : PointTier := { t with points := t.points ++ [⟨p.time, p.mark⟩] } with ht1
    have hstep : readPts t (p :: out').length ((p :: out').flatMap ptLines ++ rest)
        = readPts t1 out'.length (out'.flatMap ptLines ++ rest) := by
      have hlines : (p :: out').flatMap ptLines ++ rest
          = AbsLine.raw "points [k]:" :: AbsLine.numL "time" p.time
            :: AbsLine.strL "mark" (double p.mark)
            :: (out'.flatMap ptLines ++ rest) := by
        simp [ptLines]
      rw [hlines, List.length_cons]
      simp only [readPts, rdLine, parse_line, expectQ, bindE_ok, getMark_mark,
        undouble_double, hr1]
      rw [hadd]
      simp only [bindE_ok]
    rw [hstep]
    have hrec := readPts_ok out' t1 rest
      (by
        rw [ht1]
        show (t.points ++ [_]).Pairwise _
        rw [List.pairwise_append]
        refine ⟨hPt, by simp, ?_⟩
        intro a ha b hb
        rw [List.mem_singleton] at hb
        subst hb
        exact le_of_lt (hcross a ha p (List.mem_cons_self p out')))
      (hPo.of_cons)
      (by
        intro e he x hx
        rw [ht1] at he
        rcases List.mem_append.mp he with h | h
        · exact hcross e h x (List.mem_cons_of_mem p hx)
        · rw [List.mem_singleton] at h
          subst h
          exact List.rel_of_pairwise_cons hPo hx)
      (fun e he => hrnd e (List.mem_cons_of_mem p he))
      (fun e he => hlo e (List.mem_cons_of_mem p he))
      (fun e he => hhi e (List.mem_cons_of_mem p he))
    rw [hrec]
    rw [ht1]
    simp [List.append_assoc]

/-! ### Reading back a whole written tier -/

/-- Reading one written interval tier. -/
theorem readTier_interval_ok (M : ℚ) (fm : String) (t : IntervalTier) (rest : List AbsLine)
    (hMr : pyRound M 5 = M) (hh : ivReadHyp M t) :
    readTier true false (tierLines M fm (.interval t) ++ rest)
      = .ok (.interval
          { name := t.name, minTime := t.minTime, maxTime := some M,
            intervals := (t.fillInTheGaps fm).map fun e => { e with strict := true },
            strict := true }, rest) := by
  obtain ⟨hminr, hPt, helems, mt, hmt, hmt0, hmtM, hmtr, hminmt, hmax⟩ := hh
  set out := t.fillInTheGaps fm with hout
  have houtdef : out = fillGapsFrom fm t.minTime (some mt) t.intervals := by
    rw [hout, IntervalTier.fillInTheGaps, hmt]
  have hpl : ∀ e ∈ t.intervals, t.minTime ≤ e.minTime := fun e he => (helems e he).2.1
  have hml : ∀ e ∈ t.intervals, e.maxTime ≤ mt := hmax
  have hvl : ∀ e ∈ t.intervals, e.minTime < e.maxTime := fun e he => (helems e he).1
  have hbnd := fillGapsFrom_bounds fm mt t.intervals t.minTime hpl hminmt hml hPt hvl
  have hvo : ∀ e ∈ out, e.minTime < e.maxTime := by
    intro e he
    exact (hbnd e (houtdef ▸ he)).1
  have hPo : out.Pairwise fun a b => a.maxTime ≤ b.minTime := by
    have hcov := fillGapsFrom_covers fm mt t.intervals t.minTime hpl hminmt hml hPt hvl
    rw [houtdef]
    exact pairwise_maxle_of_chain _ (fun e he => (hbnd e he).1) hcov.chain
  have hrnd : ∀ e ∈ out, pyRound e.minTime 5 = e.minTime ∧ pyRound e.maxTime 5 = e.maxTime := by
    rw [houtdef]
    exact fillGapsFrom_pred (fun q => pyRound q 5 = q) fm mt t.intervals t.minTime
      hminr hmtr (fun e he => ⟨(helems e he).2.2.1, (helems e he).2.2.2⟩)
  have hlines : tierLines M fm (.interval t) ++ rest
      = AbsLine.raw "item [i]:" :: AbsLine.strL "class" "IntervalTier"
        :: AbsLine.strL "name" t.name :: AbsLine.numL "xmin" t.minTime
        :: AbsLine.numL "xmax" M :: AbsLine.intL "intervals: size" out.length
        :: (out.flatMap ivLines ++ rest) := by
    simp [tierLines, hout]
  rw [hlines]
  have hread := readIvs_ok out
      { name := t.name, minTime := t.minTime, maxTime := some M, intervals := [], strict := true }
      rest List.Pairwise.nil (by simp) hPo hvo (by simp) hrnd
      (fun e he => not_lt.mpr (hbnd e (houtdef ▸ he)).2.1)
      (by
        intro e he
        have h1 : e.maxTime ≤ M := le_trans (hbnd e (houtdef ▸ he)).2.2 hmtM
        have : ¬ qOf (some M) < e.maxTime := by
          rw [show qOf (some M) = M from rfl]
          exact not_lt.mpr h1
        rw [decide_eq_false this, Bool.and_false])
  unfold readTier
  simp only [rdLine, Bool.false_eq_true, if_false, parse_line, expectS, expectQ, bindE_ok,
    hminr, hMr, pvToNat, pyRound_ofInt, ratFloor_ofInt, Int.toNat_natCast]
  rw [if_pos trivial]
  rw [hread]
  simp only [bindE_ok, List.nil_append]

/-- Reading one written point tier. -/
theorem readTier_point_ok (M : ℚ) (fm : String) (t : PointTier) (rest : List AbsLine)
    (hh : ptReadHyp t) :
    readTier true false (tierLines M fm (.point t) ++ rest)
      = .ok (.point
          { name := t.name, minTime := 0, maxTime := none, points := t.points,
            strict := true }, rest) := by
  obtain ⟨hPo, hpts⟩ := hh
  have hlines : tierLines M fm (.point t) ++ rest
      = AbsLine.raw "item [i]:" :: AbsLine.strL "class" "TextTier"
        :: AbsLine.strL "name" t.name :: AbsLine.numL "xmin" t.minTime
        :: AbsLine.numL "xmax" M :: AbsLine.intL "points: size" t.points.length
        :: (t.points.flatMap ptLines ++ rest) := by
    simp [tierLines]
  rw [hlines]
  have hread := readPts_ok t.points { name := t.name } rest
      List.Pairwise.nil hPo (by simp)
      (fun p hp => (hpts p hp).2)
      (fun p hp => not_lt.mpr (by
        show (0 : ℚ) ≤ p.time
        exact (hpts p hp).1))
      (fun p hp => by
        rw [show truthyB (none : Option ℚ) = false from rfl, Bool.false_and])
  unfold readTier
  simp only [rdLine, Bool.false_eq_true, if_false, parse_line, expectS, expectQ, bindE_ok,
    pvToNat, pyRound_ofInt, ratFloor_ofInt, Int.toNat_natCast]
  rw [if_neg (by decide : ¬ ("TextTier" : String) = "IntervalTier")]
  rw [hread]
  simp only [bindE_ok, List.nil_append]

/-- Setting `strict` on elements that already carry it is the identity. -/
theorem map_strict_strict (l : List Interval) :
    (l.map fun e => { e with strict := true }).map (fun iv => { iv with strict := true })
      = l.map fun e => { e with strict := true } := by
  rw [List.map_map]
  rfl

/-- `self.append` of a freshly read tier: the grid's `maxTime` equals the
written `maxT`, so the too-late check passes, and `strict` propagation is the
identity on the read-back form. -/
theorem append_readBack (M : ℚ) (fm : String) (g : TextGrid) (tr : Tier)
    (hg : g.maxTime = some M) (hs : g.strict = true) :
    g.append (Tier.readBack M fm tr)
      = .ok { g with tiers := g.tiers ++ [Tier.readBack M fm tr] } := by
  cases tr with
  | interval t =>
    simp only [TextGrid.append, Tier.readBack, Tier.maxTime, hg, hs]
    rw [if_neg (lt_irrefl M)]
    simp only [Tier.setStrict, map_strict_strict]
  | point t =>
    simp only [TextGrid.append, Tier.readBack, Tier.maxTime, hg, hs]
    simp only [Tier.setStrict]

/-- The tier loop of `TextGrid.read` over the lines written for `ts` with the
grid maximum `M`: every tier reads back and is appended in order. -/
theorem readTiers_ok (M : ℚ) (fm : String) (ts : List Tier) :
    ∀ (g : TextGrid) (rest : List AbsLine), g.maxTime = some M → g.strict = true →
    pyRound M 5 = M →
    (∀ t, Tier.interval t ∈ ts → ivReadHyp M t) →
    (∀ t, Tier.point t ∈ ts → ptReadHyp t) →
    readTiers g false ts.length (ts.flatMap (tierLines M fm) ++ rest)
      = .ok ({ g with tiers := g.tiers ++ ts.map (Tier.readBack M fm) }, rest) := by
  induction ts with
  | nil =>
    intro g rest _ _ _ _ _
    simp [readTiers]
  | cons tr ts ih =>
    intro g rest hg hs hMr hiv hpt
    have hone : readTier true false (tierLines M fm tr ++ (ts.flatMap (tierLines M fm) ++ rest))
        = .ok (Tier.readBack M fm tr, ts.flatMap (tierLines M fm) ++ rest) := by
      cases tr with
      | interval t =>
        exact readTier_interval_ok M fm t _ hMr (hiv t (List.mem_cons_self _ _))
      | point t =>
        exact readTier_point_ok M fm t _ (hpt t (List.mem_cons_self _ _))
    have hrec := ih { g with tiers := g.tiers ++ [Tier.readBack M fm tr] }
        rest hg hs hMr
        (fun t ht => hiv t (List.mem_cons_of_mem _ ht))
        (fun t ht => hpt t (List.mem_cons_of_mem _ ht))
    have hstep : readTiers g false (tr :: ts).length ((tr :: ts).flatMap (tierLines M fm) ++ rest)
        = bindE (readTier g.strict false (tierLines M fm tr ++ (ts.flatMap (tierLines M fm) ++ rest)))
            fun p => bindE (g.append p.1) fun g' => readTiers g' false ts.length p.2 := by
      simp only [List.length_cons, List.flatMap_cons, List.append_assoc, readTiers]
    rw [hstep, hs, hone]
    simp only [bindE_ok]
    rw [append_readBack M fm g tr hg hs]
    simp only [bindE_ok]
    rw [hrec]
    simp [List.append_assoc, hs]

/-- `parse_header` on the exact header printed by `TextGrid.write`. -/
theorem parseHeader_std (r : List AbsLine) :
    parseHeader (.strL "File type" "ooTextFile" :: .strL "Object class" "TextGrid"
        :: .raw "" :: r)
      = .ok ("TextGrid", false, r) := by
  with_unfolding_all rfl

/-- The `maxT` computed by `TextGrid.write` when `self.maxTime` is truthy. -/
theorem writeMaxT_truthy (g : TextGrid) (M : ℚ) (hM : g.maxTime = some M) (h0 : M ≠ 0) :
    g.writeMaxT = M := by
  simp only [TextGrid.writeMaxT, hM]
  rw [if_neg h0]

/-- Round trip of `TextGrid.read` over `TextGrid.write` on the abstract
lines: with a truthy rounded grid `maxTime` and tiers satisfying the
read-back hypotheses, reading succeeds and produces exactly the read-back
tiers appended to the receiver. -/
theorem textGridRead_write (g g0 : TextGrid) (M : ℚ) (fm : String)
    (hs0 : g0.strict = true)
    (hM : g.maxTime = some M) (h0 : M ≠ 0) (hMr : pyRound M 5 = M)
    (hmin : pyRound g.minTime 5 = g.minTime)
    (hiv : ∀ t, Tier.interval t ∈ g.tiers → ivReadHyp M t)
    (hpt : ∀ t, Tier.point t ∈ g.tiers → ptReadHyp t) :
    TextGrid.read g0 (g.write fm)
      = .ok
          { g0 with
            minTime := g.minTime, maxTime := some M,
            tiers := g0.tiers ++ g.tiers.map (Tier.readBack M fm) } := by
  have hmax := writeMaxT_truthy g M hM h0
  have hlines : g.write fm
      = AbsLine.strL "File type" "ooTextFile" :: AbsLine.strL "Object class" "TextGrid"
        :: AbsLine.raw "" :: AbsLine.numL "xmin" g.minTime :: AbsLine.numL "xmax" M
        :: AbsLine.raw "tiers? <exists>" :: AbsLine.intL "size" g.tiers.length
        :: AbsLine.raw "item []:" :: (g.tiers.flatMap (tierLines M fm) ++ [] ) := by
    simp [TextGrid.write, hmax]
  rw [hlines]
  have hrts := readTiers_ok M fm g.tiers
      { g0 with minTime := g.minTime, maxTime := some M } [] rfl hs0 hMr hiv hpt
  unfold TextGrid.read
  rw [parseHeader_std]
  simp only [bindE_ok]
  rw [if_pos trivial]
  simp only [rdLine, parse_line, expectQ, bindE_ok, readSize, hmin, hMr,
    Bool.false_eq_true, if_false]
  rw [hrts]
  rfl

/-! ### Helper lemmas for the claim theorems -/

/-- `Interval.__lt__` raises only the overlap error. -/
theorem intervalLt_error_shape (s o : Interval) (e : TGErr)
    (h : intervalLt s o = .error e) : e = .overlapErr s o := by
  unfold intervalLt at h
  by_cases hc : (s.strict && s.overlapsB o) = true
  · rw [if_pos hc] at h
    exact (Except.error.inj h).symm
  · rw [if_neg hc] at h
    exact Except.noConfusion h

/-- The bisect loop raises only overlap errors. -/
theorem bisectLoop_error_shape (a : List Interval) (x : Interval) :
    ∀ fuel lo hi e, bisectLoop a x fuel lo hi = .error e →
    ∃ s o, e = .overlapErr s o := by
  intro fuel
  induction fuel with
  | zero =>
    intro lo hi e h
    exact absurd h (by simp [bisectLoop])
  | succ fuel ih =>
    intro lo hi e h
    by_cases hlt : lo < hi
    · rw [show bisectLoop a x (fuel + 1) lo hi
          = (match intervalLt (a.getD ((lo + hi) / 2) default) x with
             | .error e => .error e
             | .ok true => bisectLoop a x fuel ((lo + hi) / 2 + 1) hi
             | .ok false => bisectLoop a x fuel lo ((lo + hi) / 2)) from by
        simp only [bisectLoop, if_pos hlt]] at h
      rcases hc : intervalLt (a.getD ((lo + hi) / 2) default) x with e' | b
      · rw [hc] at h
        exact ⟨_, _, (Except.error.inj h).symm.trans (intervalLt_error_shape _ _ _ hc)⟩
      · rw [hc] at h
        cases b
        · exact ih lo ((lo + hi) / 2) e h
        · exact ih ((lo + hi) / 2 + 1) hi e h
    · rw [show bisectLoop a x (fuel + 1) lo hi = .ok lo from by
        simp only [bisectLoop, if_neg hlt]] at h
      exact Except.noConfusion h

/-- `bisect_left` raises only overlap errors. -/
theorem bisectLt_error_shape (a : List Interval) (x : Interval) (e : TGErr)
    (h : bisectLt a x = .error e) : ∃ s o, e = .overlapErr s o :=
  bisectLoop_error_shape a x a.length 0 a.length e h

/-- A lower bound of the accumulator and of every element bounds the min fold. -/
theorem foldl_min_ge (c : ℚ) :
    ∀ (ts : List Tier) (a : ℚ), c ≤ a → (∀ u ∈ ts, c ≤ u.minTime) →
    c ≤ ts.foldl (fun m u => min m u.minTime) a
  | [], _, ha, _ => ha
  | u :: ts, a, ha, h =>
    foldl_min_ge c ts (min a u.minTime) (le_min ha (h u (List.mem_cons_self u ts)))
      (fun v hv => h v (List.mem_cons_of_mem u hv))

/-- An upper bound of the accumulator and of every element bounds the max fold. -/
theorem foldl_max_le (c : ℚ) :
    ∀ (ts : List Tier) (a : ℚ), a ≤ c → (∀ u ∈ ts, u.minTime ≤ c) →
    ts.foldl (fun m u => max m u.minTime) a ≤ c
  | [], _, ha, _ => ha
  | u :: ts, a, ha, h =>
    foldl_max_le c ts (max a u.minTime) (max_le ha (h u (List.mem_cons_self u ts)))
      (fun v hv => h v (List.mem_cons_of_mem u hv))

/-! ### The claims -/

/-- Claim C1 (amended): for a grid with a truthy, rounded `maxTime` and tiers
whose elements are valid, chained, rounded and within bounds, `write` followed
by `read` succeeds and reproduces the tier names and, per tier, exactly the
written element bounds and marks — the gap-filled sequence for an interval
tier (so the element count grows by the inserted fillers), the points for a
point tier. -/
theorem claim_c1 (g : TextGrid) (M : ℚ) (fm : String)
    (hM : g.maxTime = some M) (h0 : M ≠ 0) (hMr : pyRound M 5 = M)
    (hmin : pyRound g.minTime 5 = g.minTime)
    (hiv : ∀ t, Tier.interval t ∈ g.tiers → ivReadHyp M t)
    (hpt : ∀ t, Tier.point t ∈ g.tiers → ptReadHyp t) :
    ∃ g', TextGrid.read {} (g.write fm) = .ok g'
      ∧ g'.getNames = g.getNames
      ∧ g'.tiers.map Tier.obs = g.tiers.map (Tier.writeObs fm) := by
  refine ⟨_, textGridRead_write g {} M fm rfl hM h0 hMr hmin hiv hpt, ?_, ?_⟩
  · show (([] : List Tier) ++ g.tiers.map (Tier.readBack M fm)).map Tier.name
        = g.tiers.map Tier.name
    rw [List.nil_append, List.map_map]
    exact List.map_congr_left fun tr _ => by cases tr <;> rfl
  · show (([] : List Tier) ++ g.tiers.map (Tier.readBack M fm)).map Tier.obs
        = g.tiers.map (Tier.writeObs fm)
    rw [List.nil_append, List.map_map]
    refine List.map_congr_left fun tr _ => ?_
    cases tr with
    | interval t =>
      show (t.name, TierObs.ivs
          (((t.fillInTheGaps fm).map fun e => { e with strict := true }).map Interval.obs))
        = (t.name, TierObs.ivs ((t.fillInTheGaps fm).map Interval.obs))
      rw [List.map_map]
      rfl
    | point t => rfl

/-- Claim C1, witness: the spec's scenario grid round-trips through
write/read, reproducing the name and the gap-filled "word" tier. -/
theorem claim_c1_witness :
    ∃ g', TextGrid.read {} (gC1.write "") = .ok g'
      ∧ g'.getNames = gC1.getNames
      ∧ g'.tiers.map Tier.obs = gC1.tiers.map (Tier.writeObs "") :=
  claim_c1 gC1 1 "" rfl one_ne_zero (by with_unfolding_all rfl) (by with_unfolding_all rfl)
    (by
      intro t ht
      rw [show gC1.tiers = [.interval wordTier] from rfl, List.mem_singleton] at ht
      injection ht with h
      subst h
      refine ⟨by with_unfolding_all rfl, ?_, ?_, 1, rfl, one_ne_zero, le_refl 1,
        by with_unfolding_all rfl, by decide, ?_⟩
      · show ([{ minTime := 1/5, maxTime := 1/2, mark := "cat", strict := true }]
            : List Interval).Pairwise _
        simp
      · intro e he
        rw [show wordTier.intervals
              = [{ minTime := 1/5, maxTime := 1/2, mark := "cat", strict := true }] from rfl,
          List.mem_singleton] at he
        subst he
        exact ⟨by norm_num, by with_unfolding_all decide, by with_unfolding_all rfl,
          by with_unfolding_all rfl⟩
      · intro e he
        rw [show wordTier.intervals
              = [{ minTime := 1/5, maxTime := 1/2, mark := "cat", strict := true }] from rfl,
          List.mem_singleton] at he
        subst he
        norm_num)
    (by
      intro t ht
      rw [show gC1.tiers = [.interval wordTier] from rfl, List.mem_singleton] at ht
      exact Tier.noConfusion ht)

/-- Claim C1, counterexample to "the same element count per tier": writing the
scenario grid (one sparse "word" tier holding a single interval) and reading
it back yields three elements — the writer's gap filling inserts fillers, and
the reader keeps them. -/
theorem claim_c1_cex :
    (TextGrid.read {} (gC1.write "")).map (fun g => g.tiers.map Tier.obs)
      = .ok [("word", .ivs [(0, 1/5, ""), (1/5, 1/2, "cat"), (1/2, 1, "")])]
    ∧ gC1.tiers.map Tier.obs = [("word", .ivs [(1/5, 1/2, "cat")])] :=
  ⟨by with_unfolding_all rfl, by with_unfolding_all rfl⟩

/-- Claim C2: inserting any sequence of mutually non-overlapping, valid,
in-bounds intervals through `addInterval` into a tier whose existing elements
satisfy the chain invariant succeeds in any insertion order, and the tier's
iteration order afterwards is sorted ascending by start time (applying this
to each prefix of the sequence gives the invariant after every single add). -/
theorem claim_c2 (t : IntervalTier) (l : List Interval)
    (hPt : t.intervals.Pairwise fun a b => a.maxTime ≤ b.minTime)
    (hvt : ∀ e ∈ t.intervals, e.minTime < e.maxTime)
    (hvl : ∀ x ∈ l, x.minTime < x.maxTime)
    (hbl : ∀ x ∈ l, ¬ x.minTime < t.minTime ∧
      (truthyB t.maxTime && decide (qOf t.maxTime < x.maxTime)) = false)
    (hnov : l.Pairwise fun a b => a.overlapsB b = false)
    (hcross : ∀ e ∈ t.intervals, ∀ x ∈ l, e.overlapsB x = false) :
    ∃ L, t.addAll l = .ok { t with intervals := L }
      ∧ (L.Pairwise fun a b => a.minTime ≤ b.minTime)
      ∧ List.Perm L (l.map (fun x => { x with strict := t.strict }) ++ t.intervals) := by
  obtain ⟨L, hrun, hPL, hvL, hperm⟩ := addAll_ok l t hPt hvt hvl hbl hnov hcross
  exact ⟨L, hrun, pairwise_minle_of_maxle L hvL hPL, hperm⟩

/-- Claim C2, witness: two non-overlapping intervals inserted in reverse
temporal order into a fresh tier end up sorted by start time. -/
theorem claim_c2_witness :
    ∃ L, ({} : IntervalTier).addAll
          ([{ minTime := 2, maxTime := 3, mark := "b", strict := true },
            { minTime := 0, maxTime := 1, mark := "a", strict := true }] : List Interval)
        = .ok { ({} : IntervalTier) with intervals := L }
      ∧ (L.Pairwise fun a b => a.minTime ≤ b.minTime)
      ∧ List.Perm L
          (([{ minTime := 2, maxTime := 3, mark := "b", strict := true },
             { minTime := 0, maxTime := 1, mark := "a", strict := true }] : List Interval).map
              (fun x => { x with strict := ({} : IntervalTier).strict })
            ++ ({} : IntervalTier).intervals) :=
  claim_c2 {}
    ([{ minTime := 2, maxTime := 3, mark := "b", strict := true },
      { minTime := 0, maxTime := 1, mark := "a", strict := true }] : List Interval)
    List.Pairwise.nil (fun e he => absurd he (List.not_mem_nil e))
    (by decide) (by decide) (by decide)
    (fun e he => absurd he (List.not_mem_nil e))

/-- Claim C3 (amended): for an in-bounds, valid probe, inserting it into a
strict, chained, valid, all-strict tier while it overlaps some element fails
with the overlap error carrying an overlapping element and the probe; into a
non-strict tier sorted by start time whose elements are non-strict and none
of which shares both bounds with the probe, insertion succeeds at the
`bisect_left` position and the result stays sorted by start time (an
out-of-bounds overlapping insert fails with the bounds error first, and a
non-strict insert sharing both bounds with an element fails as a duplicate:
see the counterexample). -/
theorem claim_c3 (t : IntervalTier) (x : Interval)
    (hb1 : ¬ x.minTime < t.minTime)
    (hb2 : (truthyB t.maxTime && decide (qOf t.maxTime < x.maxTime)) = false) :
    ((t.intervals.Pairwise fun a b => a.maxTime ≤ b.minTime) →
      (∀ e ∈ t.intervals, e.minTime < e.maxTime) →
      (∀ e ∈ t.intervals, e.strict = true) →
      ∀ e0 ∈ t.intervals, e0.overlapsB x = true →
      ∃ e ∈ t.intervals, e.overlapsB x = true
        ∧ t.addInterval x = .error (.overlapErr e x))
    ∧ ((t.intervals.Pairwise fun a b => a.minTime ≤ b.minTime) →
      (∀ e ∈ t.intervals, e.strict = false) →
      (∀ e ∈ t.intervals, intervalEqB e x = false) →
      ∃ r, r ≤ t.intervals.length
        ∧ t.addInterval x
            = .ok { t with intervals := pyInsert r { x with strict := t.strict } t.intervals }
        ∧ (pyInsert r { x with strict := t.strict } t.intervals).Pairwise
            fun a b => a.minTime ≤ b.minTime) := by
  constructor
  · intro hPt hvt hstr e0 he0 hov
    have hsorted : ∀ i j, i < j → j < t.intervals.length →
        (t.intervals.getD i default).maxTime ≤ (t.intervals.getD j default).minTime := by
      intro i j hij hj
      have hi : i < t.intervals.length := lt_trans hij hj
      rw [List.getD_eq_getElem _ default hi, List.getD_eq_getElem _ default hj]
      exact List.pairwise_iff_getElem.mp hPt i j hi hj hij
    have hval : ∀ j, j < t.intervals.length →
        (t.intervals.getD j default).minTime < (t.intervals.getD j default).maxTime := by
      intro j hj
      rw [List.getD_eq_getElem _ default hj]
      exact hvt _ (List.getElem_mem hj)
    have hstr' : ∀ j, j < t.intervals.length →
        (t.intervals.getD j default).strict = true := by
      intro j hj
      rw [List.getD_eq_getElem _ default hj]
      exact hstr _ (List.getElem_mem hj)
    obtain ⟨i0, hi0, hi0eq⟩ := List.mem_iff_getElem.mp he0
    have hov' : (t.intervals.getD i0 default).overlapsB x = true := by
      rw [List.getD_eq_getElem _ default hi0, hi0eq]
      exact hov
    obtain ⟨e, hemem, heov, herun⟩ :=
      bisectLoop_err t.intervals x hsorted hval hstr' t.intervals.length 0
        t.intervals.length (by omega) le_rfl i0 (Nat.zero_le _) hi0 hov'
    refine ⟨e, hemem, heov, ?_⟩
    unfold IntervalTier.addInterval
    rw [if_neg hb1]
    rw [show (truthyB t.maxTime && decide (qOf t.maxTime < x.maxTime)) = false from hb2]
    have hbis : bisectLt t.intervals x = .error (.overlapErr e x) := herun
    simp only [Bool.false_eq_true, if_false, hbis]
  · intro hsorted hstr hnodup
    have hcmp : ∀ e ∈ t.intervals, intervalLt e x = .ok (decide (e.minTime < x.minTime)) :=
      fun e he => intervalLt_of_nonstrict e x (hstr e he)
    obtain ⟨r, hrlen, hbef, haft, hadd⟩ := addInterval_ok t x hb1 hb2 hcmp hsorted hnodup
    refine ⟨r, hrlen, hadd, ?_⟩
    refine pyInsert_pairwise t.intervals _ r hsorted ?_ ?_
    · intro e he
      exact le_of_lt (hbef e he)
    · intro e he
      exact not_lt.mp (haft e he)

/-- Claim C3, witness: inserting the in-bounds probe `(2, 4)` into the strict
tier holding `(1, 3)` exercises the strict branch: the insert fails with the
overlap error carrying both operands. -/
theorem claim_c3_witness :
    ((tC3s.intervals.Pairwise fun a b => a.maxTime ≤ b.minTime) →
      (∀ e ∈ tC3s.intervals, e.minTime < e.maxTime) →
      (∀ e ∈ tC3s.intervals, e.strict = true) →
      ∀ e0 ∈ tC3s.intervals,
        e0.overlapsB { minTime := 2, maxTime := 4, mark := "b", strict := true } = true →
      ∃ e ∈ tC3s.intervals,
        e.overlapsB { minTime := 2, maxTime := 4, mark := "b", strict := true } = true
        ∧ tC3s.addInterval { minTime := 2, maxTime := 4, mark := "b", strict := true }
            = .error (.overlapErr e { minTime := 2, maxTime := 4, mark := "b", strict := true }))
    ∧ ((tC3s.intervals.Pairwise fun a b => a.minTime ≤ b.minTime) →
      (∀ e ∈ tC3s.intervals, e.strict = false) →
      (∀ e ∈ tC3s.intervals,
        intervalEqB e { minTime := 2, maxTime := 4, mark := "b", strict := true } = false) →
      ∃ r, r ≤ tC3s.intervals.length
        ∧ tC3s.addInterval { minTime := 2, maxTime := 4, mark := "b", strict := true }
            = .ok
                { tC3s with
                  intervals := pyInsert r
                    { minTime := 2, maxTime := 4, mark := "b", strict := tC3s.strict }
                    tC3s.intervals }
        ∧ (pyInsert r { minTime := 2, maxTime := 4, mark := "b", strict := tC3s.strict }
              tC3s.intervals).Pairwise fun a b => a.minTime ≤ b.minTime) :=
  claim_c3 tC3s { minTime := 2, maxTime := 4, mark := "b", strict := true }
    (by decide) rfl

/-- Claim C3, counterexample: a strict overlapping insert does not always
fail with the overlap error carrying both operands — out of bounds it fails
with the bounds error — and a non-strict overlapping insert does not always
succeed: sharing both bounds with an existing element, it fails as a
duplicate. -/
theorem claim_c3_cex :
    tC3s.addInterval { minTime := 0, maxTime := 2, mark := "b", strict := true }
      = .error (.tooEarly 1)
    ∧ ({ minTime := 0, maxTime := 2, mark := "b", strict := true }
        : Interval).overlapsB { minTime := 1, maxTime := 3, mark := "a", strict := true } = true
    ∧ tC3n.addInterval { minTime := 0, maxTime := 2, mark := "b", strict := true }
      = .error (.dupInterval { minTime := 0, maxTime := 2, mark := "a", strict := false }) :=
  ⟨by with_unfolding_all rfl, by with_unfolding_all rfl, by with_unfolding_all rfl⟩

/-- Claim C4 (amended): the scenario MLF utterance at sample rate `10e6`
parses into phones `[(0, 0.05, "k"), (0.05, 0.12, "ae"), (0.12, 0.18, "t")]`
and words `[(0.12, 0.18, "cat")]`: the pending word interval is flushed with
the bounds of the record that carried the label, not with the start of the
word. -/
theorem claim_c4 :
    (mlfRead 10000000 5 c4lines).map (fun gs => gs.map fun g => g.tiers.map Tier.obs)
      = .ok [[("phones", .ivs [(0, 1/20, "k"), (1/20, 3/25, "ae"), (3/25, 9/50, "t")]),
              ("words", .ivs [(3/25, 9/50, "cat")])]] := by
  with_unfolding_all rfl

/-- Claim C4, counterexample to the claimed words tier `[(0, 0.18, "cat")]`:
the parsed words tier starts at 0.12, not 0. -/
theorem claim_c4_cex :
    (mlfRead 10000000 5 c4lines).map (fun gs => gs.map fun g => g.tiers.map Tier.obs)
      = .ok [[("phones", .ivs [(0, 1/20, "k"), (1/20, 3/25, "ae"), (3/25, 9/50, "t")]),
              ("words", .ivs [(3/25, 9/50, "cat")])]]
    ∧ ([[("phones", .ivs [(0, 1/20, "k"), (1/20, 3/25, "ae"), (3/25, 9/50, "t")]),
         ("words", .ivs [(3/25, 9/50, "cat")])]] : List (List (String × TierObs)))
      ≠ [[("phones", .ivs [(0, 1/20, "k"), (1/20, 3/25, "ae"), (3/25, 9/50, "t")]),
          ("words", .ivs [(0, 9/50, "cat")])]] :=
  ⟨by with_unfolding_all rfl, by with_unfolding_all decide⟩

/-- Claim C5 (amended): inside an utterance, every line whose
whitespace-separated field count is neither 3 nor 4 — the `.` terminator, but
equally any malformed record and the empty line at end of stream — flushes
the pending word unconditionally and seals the utterance; no input fails with
a format error here. -/
theorem claim_c5 (sr : ℚ) (rdg : Nat) (raw : String) (rest : List String)
    (phon word : IntervalTier) (wmrk : String) (wsrt wend : ℚ)
    (h3 : (pySplit (pyRstrip raw.toList)).length ≠ 3)
    (h4 : (pySplit (pyRstrip raw.toList)).length ≠ 4) :
    mlfLoop sr rdg (raw :: rest) phon word wmrk wsrt wend
      = bindE (word.add wsrt wend wmrk) fun w => .ok (phon, w, rest) := by
  simp only [mlfLoop]
  rcases hE : pySplit (pyRstrip raw.toList) with _ | ⟨f0, _ | ⟨f1, _ | ⟨f2, _ | ⟨f3, _ | ⟨f4, fs⟩⟩⟩⟩⟩
  · rfl
  · rfl
  · rfl
  · rw [hE] at h3
    simp at h3
  · rw [hE] at h4
    simp at h4
  · rfl

/-- Claim C5, witness: the 2-field line `xx yy` seals the utterance exactly
like the terminator would. -/
theorem claim_c5_witness :
    mlfLoop 10000000 5 ["xx yy"] { name := "phones" } { name := "words" } "" 0 1
      = bindE (IntervalTier.add { name := "words" } 0 1 "") fun w =>
          .ok ({ name := "phones" }, w, []) :=
  claim_c5 10000000 5 "xx yy" [] { name := "phones" } { name := "words" } "" 0 1
    (by with_unfolding_all decide) (by with_unfolding_all decide)

/-- Claim C5, counterexample to "a field count that is neither 3 nor 4 and
not a single `.` fails with a FormatError": the stream whose utterance hits
the 2-field line `xx yy` reads back without error, with the pending (empty)
word flushed and the utterance sealed. -/
theorem claim_c5_cex :
    (mlfRead 10000000 5 c5lines).map (fun gs => gs.map fun g => g.tiers.map Tier.obs)
      = .ok [[("phones", .ivs [(0, 1/20, "k")]), ("words", .ivs [(0, 1/20, "")])]] := by
  with_unfolding_all rfl

/-- Claim C6 (amended): `append` never checks the tier's `minTime` and fails
only when both the grid's and the tier's `maxTime` are set with the tier's
exceeding the grid's; on success it appends the tier with the grid's `strict`
propagated into it and its elements.  `extend` fails too-early when the
minimum of the tiers' `minTime`s is below the set's `minTime`, fails
too-late when the set's `maxTime` is truthy and the maximum of the tiers'
`minTime`s (the tiers' `maxTime`s are never consulted) exceeds it, and on
success appends the tiers unchanged, without propagating `strict`. -/
theorem claim_c6 (g : TextGrid) (tr : Tier) :
    ((∀ M mt, g.maxTime = some M → tr.maxTime = some mt → ¬ M < mt) →
      g.append tr = .ok { g with tiers := g.tiers ++ [tr.setStrict g.strict] })
    ∧ (∀ M mt, g.maxTime = some M → tr.maxTime = some mt → M < mt →
      g.append tr = .error (.tooLate M))
    ∧ (∀ (t0 : Tier) (ts : List Tier),
      (∀ u ∈ t0 :: ts, ¬ Tier.minTime u < g.minTime) →
      (∀ u ∈ t0 :: ts,
        (truthyB g.maxTime && decide (qOf g.maxTime < Tier.minTime u)) = false) →
      g.extend (t0 :: ts) = .ok { g with tiers := g.tiers ++ (t0 :: ts) })
    ∧ (∀ (t0 : Tier) (ts : List Tier),
      ts.foldl (fun m u => min m u.minTime) t0.minTime < g.minTime →
      g.extend (t0 :: ts) = .error (.tooEarly g.minTime))
    ∧ (∀ (t0 : Tier) (ts : List Tier),
      ¬ ts.foldl (fun m u => min m u.minTime) t0.minTime < g.minTime →
      (truthyB g.maxTime
        && decide (qOf g.maxTime < ts.foldl (fun m u => max m u.minTime) t0.minTime)) = true →
      g.extend (t0 :: ts) = .error (.tooLate (qOf g.maxTime))) := by
  refine ⟨?_, ?_, ?_, ?_, ?_⟩
  · intro h
    unfold TextGrid.append
    rcases hg : g.maxTime with _ | M
    · rfl
    · rcases ht : tr.maxTime with _ | mt
      · rfl
      · show (if M < mt then Except.error (TGErr.tooLate M)
            else Except.ok
              { g with
                maxTime := some M,
                tiers := g.tiers ++ [tr.setStrict g.strict] })
          = Except.ok
              { g with
                maxTime := some M,
                tiers := g.tiers ++ [tr.setStrict g.strict] }
        rw [if_neg (h M mt hg ht)]
  · intro M mt hg ht hlt
    unfold TextGrid.append
    rw [hg, ht]
    show (if M < mt then Except.error (TGErr.tooLate M)
        else Except.ok
          { g with
            maxTime := some M,
            tiers := g.tiers ++ [tr.setStrict g.strict] })
      = Except.error (TGErr.tooLate M)
    rw [if_pos hlt]
  · intro t0 ts hmin hmax
    have h1 : ¬ ts.foldl (fun m u => min m u.minTime) t0.minTime < g.minTime :=
      not_lt.mpr (foldl_min_ge g.minTime ts t0.minTime
        (not_lt.mp (hmin t0 (List.mem_cons_self t0 ts)))
        (fun u hu => not_lt.mp (hmin u (List.mem_cons_of_mem t0 hu))))
    have h2 : (truthyB g.maxTime
        && decide (qOf g.maxTime < ts.foldl (fun m u => max m u.minTime) t0.minTime)) = false := by
      cases hgt : truthyB g.maxTime with
      | false => rw [Bool.false_and]
      | true =>
        have hle : ts.foldl (fun m u => max m u.minTime) t0.minTime ≤ qOf g.maxTime := by
          refine foldl_max_le (qOf g.maxTime) ts t0.minTime ?_ ?_
          · have hc := hmax t0 (List.mem_cons_self t0 ts)
            rw [hgt, Bool.true_and] at hc
            exact not_lt.mp (of_decide_eq_false hc)
          · intro u hu
            have hc := hmax u (List.mem_cons_of_mem t0 hu)
            rw [hgt, Bool.true_and] at hc
            exact not_lt.mp (of_decide_eq_false hc)
        rw [Bool.true_and, decide_eq_false (not_lt.mpr hle)]
    show (if ts.foldl (fun m u => min m u.minTime) t0.minTime < g.minTime
        then Except.error (TGErr.tooEarly g.minTime)
        else if (truthyB g.maxTime
            && decide (qOf g.maxTime < ts.foldl (fun m u => max m u.minTime) t0.minTime)) = true
          then Except.error (TGErr.tooLate (qOf g.maxTime))
          else Except.ok ({ g with tiers := g.tiers ++ (t0 :: ts) } : TextGrid))
      = Except.ok ({ g with tiers := g.tiers ++ (t0 :: ts) } : TextGrid)
    rw [if_neg h1, h2]
    rfl
  · intro t0 ts hmn
    unfold TextGrid.extend
    show (if ts.foldl (fun m u => min m u.minTime) t0.minTime < g.minTime
        then Except.error (TGErr.tooEarly g.minTime)
        else if (truthyB g.maxTime
            && decide (qOf g.maxTime < ts.foldl (fun m u => max m u.minTime) t0.minTime)) = true
          then Except.error (TGErr.tooLate (qOf g.maxTime))
          else Except.ok ({ g with tiers := g.tiers ++ (t0 :: ts) } : TextGrid))
      = Except.error (TGErr.tooEarly g.minTime)
    rw [if_pos hmn]
  · intro t0 ts hmn hmx
    unfold TextGrid.extend
    show (if ts.foldl (fun m u => min m u.minTime) t0.minTime < g.minTime
        then Except.error (TGErr.tooEarly g.minTime)
        else if (truthyB g.maxTime
            && decide (qOf g.maxTime < ts.foldl (fun m u => max m u.minTime) t0.minTime)) = true
          then Except.error (TGErr.tooLate (qOf g.maxTime))
          else Except.ok ({ g with tiers := g.tiers ++ (t0 :: ts) } : TextGrid))
      = Except.error (TGErr.tooLate (qOf g.maxTime))
    rw [if_neg hmn, if_pos hmx]

/-- Claim C6, counterexample: a tier starting before the grid appends
without error (no `minTime` check and `strict` is propagated) even though
the same tier given to `extend` raises too-early; `extend` raises too-late
off a tier's `minTime` although that tier declares no `maxTime` at all; and
a successful `extend` leaves a non-strict tier non-strict in a strict
grid. -/
theorem claim_c6_cex :
    gC6.append (.interval tC6)
      = .ok { gC6 with tiers := [Tier.setStrict true (.interval tC6)] }
    ∧ tC6.minTime < gC6.minTime
    ∧ gC6.extend [.interval tC6] = .error (.tooEarly 1)
    ∧ gC6x.extend [.interval tC6x] = .error (.tooLate 1)
    ∧ gC6x.extend [.interval tC6s] = .ok { gC6x with tiers := [.interval tC6s] } :=
  ⟨by with_unfolding_all rfl, by decide, by with_unfolding_all rfl,
   by with_unfolding_all rfl, by with_unfolding_all rfl⟩

/-- Claim C7: for a tier with a declared `maxTime` whose elements are valid,
chained and within bounds, the gap-filled sequence tiles `[minTime, maxTime]`
exactly — the first element starts at `minTime`, consecutive elements abut,
the last ends at `maxTime` — and every element (fillers included) has
positive duration. -/
theorem claim_c7 (t : IntervalTier) (mt : ℚ) (fm : String)
    (hmt : t.maxTime = some mt)
    (hpl : ∀ e ∈ t.intervals, t.minTime ≤ e.minTime)
    (hpm : t.minTime ≤ mt)
    (hml : ∀ e ∈ t.intervals, e.maxTime ≤ mt)
    (hsorted : t.intervals.Pairwise fun a b => a.maxTime ≤ b.minTime)
    (hval : ∀ e ∈ t.intervals, e.minTime < e.maxTime) :
    CoversFrom t.minTime mt (t.fillInTheGaps fm)
    ∧ ∀ e ∈ t.fillInTheGaps fm, e.minTime < e.maxTime := by
  have hdef : t.fillInTheGaps fm = fillGapsFrom fm t.minTime (some mt) t.intervals := by
    rw [IntervalTier.fillInTheGaps, hmt]
  rw [hdef]
  exact ⟨fillGapsFrom_covers fm mt t.intervals t.minTime hpl hpm hml hsorted hval,
    fun e he => (fillGapsFrom_bounds fm mt t.intervals t.minTime hpl hpm hml hsorted hval e he).1⟩

/-- Claim C7, witness: the scenario tier (only `(0.2, 0.5, "cat")` on
`[0, 1]`) gap-fills to an exact tiling, and the tiling is
`[(0, 0.2, ""), (0.2, 0.5, "cat"), (0.5, 1, "")]`. -/
theorem claim_c7_witness :
    (CoversFrom wordTier.minTime 1 (wordTier.fillInTheGaps "")
      ∧ ∀ e ∈ wordTier.fillInTheGaps "", e.minTime < e.maxTime)
    ∧ (wordTier.fillInTheGaps "").map Interval.obs
        = [(0, 1/5, ""), (1/5, 1/2, "cat"), (1/2, 1, "")] :=
  ⟨claim_c7 wordTier 1 "" rfl (by with_unfolding_all decide) (by decide)
      (by with_unfolding_all decide) (by with_unfolding_all decide)
      (by with_unfolding_all decide),
   by with_unfolding_all rfl⟩

/-- Claim C8 (amended): `add` fails too-early exactly when the element's
start (or time) is strictly below the tier's `minTime`; it fails too-late,
naming the bound, when the tier's `maxTime` is set *and nonzero* and the
element's end (or time) exceeds it; a tier whose `maxTime` is `None` — or
`0.0`, which the truthiness test conflates with it — never raises too-late. -/
theorem claim_c8 (t : IntervalTier) (iv : Interval) (pt : PointTier) (p : Point) :
    (iv.minTime < t.minTime → t.addInterval iv = .error (.tooEarly t.minTime))
    ∧ (∀ m, ¬ iv.minTime < t.minTime → t.maxTime = some m → m ≠ 0 → m < iv.maxTime →
        t.addInterval iv = .error (.tooLate m))
    ∧ ((t.maxTime = none ∨ t.maxTime = some 0) →
        ∀ b, t.addInterval iv ≠ .error (.tooLate b))
    ∧ (p.time < pt.minTime → pt.addPoint p = .error (.tooEarly pt.minTime))
    ∧ (∀ m, ¬ p.time < pt.minTime → pt.maxTime = some m → m ≠ 0 → m < p.time →
        pt.addPoint p = .error (.tooLate m))
    ∧ ((pt.maxTime = none ∨ pt.maxTime = some 0) →
        ∀ b, pt.addPoint p ≠ .error (.tooLate b)) := by
  have htrfalse : ∀ (o : Option ℚ), o = none ∨ o = some 0 → truthyB o = false := by
    intro o ho
    rcases ho with h | h
    · rw [h]
      rfl
    · rw [h]
      show decide ((0 : ℚ) ≠ 0) = false
      rw [decide_eq_false (fun hq => hq rfl)]
  refine ⟨?_, ?_, ?_, ?_, ?_, ?_⟩
  · intro h
    unfold IntervalTier.addInterval
    rw [if_pos h]
  · intro m h1 hm h0 hlt
    unfold IntervalTier.addInterval
    rw [hm, if_neg h1]
    have hc : (truthyB (some m) && decide (qOf (some m) < iv.maxTime)) = true := by
      rw [show truthyB (some m) = decide (m ≠ 0) from rfl, decide_eq_true h0,
        show qOf (some m) = m from rfl, decide_eq_true hlt]
      rfl
    rw [hc, if_pos rfl]
    rfl
  · intro hmx b hcontra
    unfold IntervalTier.addInterval at hcontra
    by_cases h1 : iv.minTime < t.minTime
    · rw [if_pos h1] at hcontra
      exact TGErr.noConfusion (Except.error.inj hcontra)
    · rw [if_neg h1, htrfalse t.maxTime hmx, Bool.false_and,
        if_neg Bool.false_ne_true] at hcontra
      rcases hbi : bisectLt t.intervals iv with e | i
      · rw [hbi] at hcontra
        obtain ⟨s, o, rfl⟩ := bisectLt_error_shape t.intervals iv e hbi
        exact TGErr.noConfusion (Except.error.inj hcontra)
      · rw [hbi] at hcontra
        have hcontra2 : (if (decide (i ≠ t.intervals.length)
              && intervalEqB (t.intervals.getD i default) iv) = true
            then Except.error (TGErr.dupInterval (t.intervals.getD i default))
            else Except.ok
              { t with
                intervals := pyInsert i { iv with strict := t.strict } t.intervals })
            = Except.error (TGErr.tooLate b) := hcontra
        by_cases hd : (decide (i ≠ t.intervals.length)
            && intervalEqB (t.intervals.getD i default) iv) = true
        · rw [if_pos hd] at hcontra2
          exact TGErr.noConfusion (Except.error.inj hcontra2)
        · rw [if_neg hd] at hcontra2
          exact Except.noConfusion hcontra2
  · intro h
    unfold PointTier.addPoint
    rw [if_pos h]
  · intro m h1 hm h0 hlt
    unfold PointTier.addPoint
    rw [hm, if_neg h1]
    have hc : (truthyB (some m) && decide (qOf (some m) < p.time)) = true := by
      rw [show truthyB (some m) = decide (m ≠ 0) from rfl, decide_eq_true h0,
        show qOf (some m) = m from rfl, decide_eq_true hlt]
      rfl
    rw [hc, if_pos rfl]
    rfl
  · intro hmx b hcontra
    unfold PointTier.addPoint at hcontra
    by_cases h1 : p.time < pt.minTime
    · rw [if_pos h1] at hcontra
      exact TGErr.noConfusion (Except.error.inj hcontra)
    · rw [if_neg h1, htrfalse pt.maxTime hmx, Bool.false_and,
        if_neg Bool.false_ne_true] at hcontra
      have hcontra2 : (if (decide (bisectPt pt.points p < pt.points.length)
            && decide ((pt.points.getD (bisectPt pt.points p) default).time = p.time)) = true
          then Except.error (TGErr.dupPoint p)
          else Except.ok
            { pt with points := pyInsert (bisectPt pt.points p) p pt.points })
          = Except.error (TGErr.tooLate b) := hcontra
      by_cases hd : (decide (bisectPt pt.points p < pt.points.length)
          && decide ((pt.points.getD (bisectPt pt.points p) default).time = p.time)) = true
      · rw [if_pos hd] at hcontra2
        exact TGErr.noConfusion (Except.error.inj hcontra2)
      · rw [if_neg hd] at hcontra2
        exact Except.noConfusion hcontra2

/-- Claim C8, counterexample: a tier whose `maxTime` is set to `0.0` accepts
an element ending at 5 (the too-late test is a truthiness test, not an
is-set test), for points just as for intervals; with a nonzero `maxTime` the
same insert does fail too-late, and a start below `minTime` fails
too-early. -/
theorem claim_c8_cex :
    tC8.addInterval { minTime := 0, maxTime := 5, mark := "a", strict := true }
      = .ok { tC8 with intervals := [{ minTime := 0, maxTime := 5, mark := "a", strict := true }] }
    ∧ ({ name := "u", minTime := 0, maxTime := some 1, intervals := [], strict := true }
        : IntervalTier).addInterval { minTime := 0, maxTime := 5, mark := "a", strict := true }
      = .error (.tooLate 1)
    ∧ tC8.addInterval { minTime := -1, maxTime := 5, mark := "a", strict := true }
      = .error (.tooEarly 0)
    ∧ ({ name := "p", minTime := 0, maxTime := some 0, points := [], strict := true }
        : PointTier).addPoint { time := 5, mark := "m" }
      = .ok { name := "p", minTime := 0, maxTime := some 0,
              points := [{ time := 5, mark := "m" }], strict := true } :=
  ⟨by with_unfolding_all rfl, by with_unfolding_all rfl, by with_unfolding_all rfl,
   by with_unfolding_all rfl⟩

/-- Claim C9: the reader's element loop drops a block whose parsed
(rounded) minimum is not strictly below its parsed maximum — the tier is
left unchanged and the loop continues on the remaining lines with no error
— whereas the `Interval` constructor and `IntervalTier.add` raise the
degenerate-interval error on those same bounds. -/
theorem claim_c9 (t : IntervalTier) (k : Nat) (a b : ℚ) (s : String)
    (src : List AbsLine) (minT maxT : ℚ) (mk : String)
    (h : ¬ pyRound a 5 < pyRound b 5) (h2 : ¬ minT < maxT) :
    readIvs t false (k + 1)
        (.raw "intervals [j]:" :: .numL "xmin" a :: .numL "xmax" b :: .strL "text" s :: src)
      = readIvs t false k src
    ∧ intervalNew minT maxT mk = .error (.degenerate minT maxT)
    ∧ t.add minT maxT mk = .error (.degenerate minT maxT) := by
  refine ⟨?_, ?_, ?_⟩
  · simp only [readIvs, rdLine, Bool.false_eq_true, if_false, parse_line, expectQ, bindE_ok,
      getMark_text]
    rw [if_neg h]
  · unfold intervalNew
    rw [if_pos (not_lt.mp h2)]
  · unfold IntervalTier.add intervalNew
    rw [if_pos (not_lt.mp h2)]

/-- Claim C9, witness: a written block with `xmin = 1`, `xmax = 1` is
skipped by the reader, while `Interval(1, 1)` and `add(1, 1)` raise. -/
theorem claim_c9_witness :
    readIvs {} false 1
        [.raw "intervals [j]:", .numL "xmin" 1, .numL "xmax" 1, .strL "text" "x"]
      = readIvs {} false 0 []
    ∧ intervalNew 1 1 "y" = .error (.degenerate 1 1)
    ∧ IntervalTier.add {} 1 1 "y" = .error (.degenerate 1 1) :=
  claim_c9 {} 0 1 1 "x" [] 1 1 "y" (by with_unfolding_all decide) (by decide)

/-- Claim C10: at an utterance terminator `MLF.read` flushes one final word
interval from the pending accumulator unconditionally — with a fresh
accumulator this is `Interval(0.0, 0.0, '')` — so an utterance consisting of
only a filename line and the terminator fails with the degenerate-interval
error instead of producing an empty utterance. -/
theorem claim_c10 :
    (∀ (phon word : IntervalTier) (rest : List String),
        mlfLoop 10000000 5 ("." :: rest) phon word "" 0 0
          = bindE (word.add 0 0 "") fun w => .ok (phon, w, rest))
    ∧ mlfRead 10000000 5 ["#!MLF!#", "\"empty.lab\"", "."]
        = .error (.degenerate 0 0) := by
  constructor
  · intro phon word rest
    with_unfolding_all rfl
  · with_unfolding_all rfl

end Tgfmt
